import Mathlib

set_option maxRecDepth 100000
set_option maxHeartbeats 1000000

/-!
Shallow embedding of the Optimus-OS core (C-subset compiler, stack VM,
process manager) together with proofs about the claims of its
specification.

Conventions of the embedding:
* JS numbers are modelled as rationals; the transcendental Math
  functions, the float remainder operator and the IEEE-754 float32 and
  float64 memory codecs are abstract operations collected in a `Host`
  structure, so every theorem quantifies over them.
* Process memory is a byte function over addresses below 65536.
* Thrown JS exceptions are modelled as an `Option String` paired with
  the state at the moment of the throw, so that mutations performed
  before a throw are preserved, exactly as in the source.
* The stdout sink is modelled as a list of the strings written to it.
-/

namespace OptimusOS

/-! ### JavaScript string primitives used by the source -/

/-- Whitespace as recognised by the JS `trim` and the regex class used
by `split` in the source (restricted to the ASCII range, which is the
only range the programs in the repository produce). -/
def isJsWs (c : Char) : Bool :=
  c = ' ' || c = '\t' || c = '\n' || c = '\r' || c = '\x0b' || c = '\x0c'

/-- Model of `String.prototype.trim`. -/
def trimChars (l : List Char) : List Char :=
  ((l.dropWhile isJsWs).reverse.dropWhile isJsWs).reverse

/-- Model of `s.split(/\s+/)` for a string `s`: pieces between maximal
whitespace runs; a leading or trailing run contributes an empty piece,
and the empty string yields one empty piece. The Boolean tracks whether
the previous character belonged to a whitespace run. -/
def splitWsRegexAux : List Char → Bool → List Char → List (List Char)
  | [], _, acc => [acc.reverse]
  | c :: rest, inWs, acc =>
    if isJsWs c then
      if inWs then splitWsRegexAux rest true acc
      else acc.reverse :: splitWsRegexAux rest true []
    else splitWsRegexAux rest false (c :: acc)

def splitWsRegex (l : List Char) : List (List Char) := splitWsRegexAux l false []

/-- Model of `input.trim().split(/\s+/)` used by `resolveInput`: note
that a blank line yields the single piece `""`, exactly as in JS. -/
def jsTrimSplitWs (l : List Char) : List (List Char) :=
  let t := trimChars l
  if t = [] then [[]] else splitWsRegex t

/-- Splitting a character list on the newline character, the model of
`source.split('\n')`. The result is always nonempty. -/
def splitNl : List Char → List (List Char)
  | [] => [[]]
  | c :: rest =>
    let r := splitNl rest
    if c = '\n' then [] :: r
    else
      match r with
      | h :: t => (c :: h) :: t
      | [] => [[c]]

/-- Joining with newlines, the model of `lines.join('\n')`. -/
def joinNl : List (List Char) → List Char
  | [] => []
  | [x] => x
  | x :: xs => x ++ '\n' :: joinNl xs

def decDigit? (c : Char) : Bool := '0' ≤ c && c ≤ '9'

def hexDigitVal? (c : Char) : Option ℕ :=
  if '0' ≤ c ∧ c ≤ '9' then some (c.toNat - '0'.toNat)
  else if 'a' ≤ c ∧ c ≤ 'f' then some (c.toNat - 'a'.toNat + 10)
  else if 'A' ≤ c ∧ c ≤ 'F' then some (c.toNat - 'A'.toNat + 10)
  else none

def decDigitsVal (l : List Char) : ℕ :=
  l.foldl (fun a c => a * 10 + (c.toNat - '0'.toNat)) 0

/-- Model of `parseInt(raw) || 0`: optional sign, an optional `0x`
prefix for hexadecimal, then the longest digit prefix; when no digit is
found JS produces `NaN`, which the `|| 0` turns into `0`. -/
def jsParseIntOr0 (l : List Char) : ℚ :=
  let l := l.dropWhile isJsWs
  let (sign, l) : ℚ × List Char :=
    match l with
    | '-' :: r => (-1, r)
    | '+' :: r => (1, r)
    | _ => (1, l)
  match l with
  | '0' :: 'x' :: r | '0' :: 'X' :: r =>
    let ds := r.takeWhile (fun c => (hexDigitVal? c).isSome)
    if ds = [] then 0
    else sign * (ds.foldl (fun a c => a * 16 + (hexDigitVal? c).getD 0) 0 : ℕ)
  | _ =>
    let ds := l.takeWhile decDigit?
    if ds = [] then 0 else sign * (decDigitsVal ds : ℕ)

/-- Model of `parseFloat(raw) || 0` on the exact decimal value: optional
sign, digits with an optional dot, and an optional exponent. JS rounds
the value to the nearest binary64 and also accepts `Infinity`; the
claims proved below only involve inputs on which the two agree or do
not depend on the parsed value at all. -/
def jsParseFloatOr0 (l : List Char) : ℚ :=
  let l := l.dropWhile isJsWs
  let (sign, l) : ℚ × List Char :=
    match l with
    | '-' :: r => (-1, r)
    | '+' :: r => (1, r)
    | _ => (1, l)
  let intDs := l.takeWhile decDigit?
  let rest := l.drop intDs.length
  let (fracDs, rest) : List Char × List Char :=
    match rest with
    | '.' :: r => (r.takeWhile decDigit?, r.drop (r.takeWhile decDigit?).length)
    | _ => ([], rest)
  if intDs = [] ∧ fracDs = [] then 0
  else
    let mant : ℚ := (decDigitsVal intDs : ℕ) +
      (decDigitsVal fracDs : ℕ) / (10 ^ fracDs.length : ℕ)
    let expo : ℤ :=
      match rest with
      | 'e' :: '-' :: r | 'E' :: '-' :: r =>
        let ds := r.takeWhile decDigit?
        if ds = [] then 0 else -(decDigitsVal ds : ℤ)
      | 'e' :: '+' :: r | 'E' :: '+' :: r =>
        let ds := r.takeWhile decDigit?
        if ds = [] then 0 else (decDigitsVal ds : ℤ)
      | 'e' :: r | 'E' :: r =>
        let ds := r.takeWhile decDigit?
        if ds = [] then 0 else (decDigitsVal ds : ℤ)
      | _ => 0
    sign * mant * (10 : ℚ) ^ expo

/-- Truncation toward zero, the integer conversion JS applies in
`ToIndex`, `ToUint8` and `ToUint16`. -/
def truncQ (q : ℚ) : ℤ := if 0 ≤ q then q.floor else q.ceil

/-- Model of the `ToUint8` conversion a `Uint8Array` element store
performs on the stored value. -/
def jsToUint8 (q : ℚ) : ℕ := ((truncQ q) % 256).toNat

/-- Model of `String.fromCharCode`, which applies `ToUint16`. -/
def jsFromCharCode (q : ℚ) : Char := Char.ofNat (((truncQ q) % 65536).toNat)

/-- Decimal rendering of an integer, as JS renders integral doubles of
moderate size. -/
def intToDec (z : ℤ) : String := toString z

/-- Model of `Number.prototype.toString(16)` on an integral value. -/
def intToHex (z : ℤ) : String :=
  if z < 0 then "-" ++ String.mk (Nat.toDigits 16 (-z).toNat)
  else String.mk (Nat.toDigits 16 z.toNat)

/-- Model of `Number.prototype.toFixed`: the sign is taken from the
value, the magnitude is rounded to `p` decimal places with ties going
away from zero. -/
def jsToFixed (v : ℚ) (p : ℕ) : String :=
  let sgn : String := if v < 0 then "-" else ""
  let a : ℚ := |v|
  let scale : ℕ := 10 ^ p
  let n : ℕ := (a * scale + 1 / 2).floor.toNat
  let ip := n / scale
  let fp := n % scale
  if p = 0 then sgn ++ toString ip
  else
    let fs := toString fp
    let pad := String.mk (List.replicate (p - fs.length) '0')
    sgn ++ toString ip ++ "." ++ pad ++ fs

/-! ### Instruction model (types.ts, second revision: the one with
`LOAD64`, `STORE64`, `LE`, `GE`, `DUP` and the indirect 64-bit opcodes) -/

inductive OpCode
  | HALT | LIT | LOAD | STORE | LOAD64 | STORE64 | GLOAD | GSTORE
  | CALL | RET | JMP | JZ | ADD | SUB | MUL | DIV | MOD
  | EQ | NEQ | LT | GT | LE | GE | PRINT | SCANF | MALLOC | FREE
  | P_PUSH | L_IND | S_IND | L_IND64 | S_IND64 | FRAME | ITOF | POP | DUP
  | SIN | COS | TAN | SQRT | POW | ABS
deriving DecidableEq, Repr

/-- Instruction record `{ op, arg? }`. Arguments emitted by the compiler
are always numbers; a missing payload is `none`. -/
structure Instr where
  op : OpCode
  arg : Option ℚ := none
deriving DecidableEq, Repr

/-- Reading of `Number(instr.arg)` for the instructions that carry a
payload. JS yields `NaN` when the payload is absent; the compiler never
emits such an instruction for an opcode that reads its payload, so the
embedding uses `0` there. -/
def argQ (instr : Instr) : ℚ := instr.arg.getD 0

inductive PState | RUNNING | TERMINATED | WAITING_INPUT
deriving DecidableEq, Repr

structure ScanCtx where
  fmt : String
  args : List ℚ
deriving DecidableEq, Repr

/-- Host-provided numeric operations: the `Math` functions that are not
exactly representable on rationals, the JS float remainder, the IEEE-754
float32 and float64 little-endian byte codecs used through the
`DataView`, and an opaque rational standing in for a `NaN` that flows
into a codec. Every theorem below holds for all hosts. -/
structure Host where
  hsin : ℚ → ℚ
  hcos : ℚ → ℚ
  htan : ℚ → ℚ
  hsqrt : ℚ → ℚ
  hpow : ℚ → ℚ → ℚ
  hrem : ℚ → ℚ → ℚ
  enc32 : ℚ → ℕ → ℕ
  dec32 : (ℕ → ℕ) → ℚ
  enc64 : ℚ → ℕ → ℕ
  dec64 : (ℕ → ℕ) → ℚ
  nan : ℚ

/-- Trivial host instantiation used by concrete witnesses; the verified
executions never consult it. -/
def trivHost : Host where
  hsin := fun _ => 0
  hcos := fun _ => 0
  htan := fun _ => 0
  hsqrt := fun _ => 0
  hpow := fun _ _ => 0
  hrem := fun _ _ => 0
  enc32 := fun _ _ => 0
  dec32 := fun _ => 0
  enc64 := fun _ _ => 0
  dec64 := fun _ => 0
  nan := 0

/-- Byte-addressed process memory; only addresses below `MEMSIZE` are
meaningful. -/
def Mem := ℕ → ℕ

def MEMSIZE : ℕ := 65536

def memUpd (m : Mem) (a v : ℕ) : Mem := fun j => if j = a then v else m j

/-- Process VM state: `new ProcessVM(pid, code, data, stdout)` fields.
The stdout sink is modelled by the list `out` of the strings written. -/
structure VM where
  pid : ℕ
  code : List Instr
  memory : Mem
  stack : List ℚ
  pc : ℚ
  fp : ℚ
  heapPointer : ℚ
  state : PState
  scanContext : Option ScanCtx
  dataSegmentSize : ℕ
  out : List String

/-- Constructor of `ProcessVM`. Assumes `data.length ≤ MEMSIZE` (a
longer segment would make `memory.set` throw in JS; the compiler never
produces one from the bundled sources). -/
def initVM (pid : ℕ) (code : List Instr) (data : List ℕ) : VM where
  pid := pid
  code := code
  memory := fun j => if j < data.length then data.getD j 0 else 0
  stack := []
  pc := 0
  fp := 60000
  heapPointer := (((((data.length : ℚ) + 1024) / 4).ceil * 4 : ℤ) : ℚ)
  state := .RUNNING
  scanContext := none
  dataSegmentSize := data.length
  out := []

/-- Rendering of a number inside a thrown message, `${addr}`. On the
integral values that occur in real executions this agrees with JS. -/
def qToStr (q : ℚ) : String :=
  if q.den = 1 then toString q.num else toString q

/-- Index of a JS array access: valid exactly for nonnegative integral
numbers; other indices read `undefined`. -/
def qNatIndex (q : ℚ) : Option ℕ :=
  if q.den = 1 ∧ 0 ≤ q.num then some q.num.toNat else none

def write4 (m : Mem) (a : ℕ) (f : ℕ → ℕ) : Mem :=
  memUpd (memUpd (memUpd (memUpd m a (f 0)) (a + 1) (f 1)) (a + 2) (f 2)) (a + 3) (f 3)

def write8 (m : Mem) (a : ℕ) (f : ℕ → ℕ) : Mem :=
  memUpd (memUpd (memUpd (memUpd (write4 m a f) (a + 4) (f 4)) (a + 5) (f 5)) (a + 6) (f 6))
    (a + 7) (f 7)

/-- Model of a `setMemory` call: range check on the raw value, then a
float32 store at the truncated index (the `ToIndex` conversion of the
`DataView`). On a failed check the memory is unchanged and the thrown
message is returned. -/
def setMem32 (host : Host) (m : Mem) (addr val : ℚ) : Mem × Option String :=
  if addr < 0 ∨ ((MEMSIZE : ℚ) - 4) ≤ addr then
    (m, some ("Segfault: Write " ++ qToStr addr))
  else
    (write4 m (truncQ addr).toNat (host.enc32 val), none)

def setMem64 (host : Host) (m : Mem) (addr val : ℚ) : Mem × Option String :=
  if addr < 0 ∨ ((MEMSIZE : ℚ) - 8) ≤ addr then
    (m, some ("Segfault: Write " ++ qToStr addr))
  else
    (write8 m (truncQ addr).toNat (host.enc64 val), none)

/-- Model of `setMemoryByte`: `Uint8Array` element store; a store at a
non-integral index passes the range check but is ignored by the typed
array. -/
def setMemByte (m : Mem) (addr val : ℚ) : Mem × Option String :=
  if addr < 0 ∨ (MEMSIZE : ℚ) ≤ addr then
    (m, some ("Segfault: Write Byte " ++ qToStr addr))
  else
    match qNatIndex addr with
    | some n => (memUpd m n (jsToUint8 val), none)
    | none => (m, none)

def getMem32 (host : Host) (m : Mem) (addr : ℚ) : Except String ℚ :=
  if addr < 0 ∨ ((MEMSIZE : ℚ) - 4) ≤ addr then
    .error ("Segfault: Read " ++ qToStr addr)
  else
    .ok (host.dec32 fun k => m ((truncQ addr).toNat + k))

def getMem64 (host : Host) (m : Mem) (addr : ℚ) : Except String ℚ :=
  if addr < 0 ∨ ((MEMSIZE : ℚ) - 8) ≤ addr then
    .error ("Segfault: Read " ++ qToStr addr)
  else
    .ok (host.dec64 fun k => m ((truncQ addr).toNat + k))

/-- Model of `readString`: walk bytes from `addr` until a zero byte or
the end of memory. Reads at invalid indices yield `undefined`, which is
not `=== 0` and renders as the NUL character, exactly as in JS. -/
def readStringAux (m : Mem) : ℕ → ℚ → List Char → List Char
  | 0, _, acc => acc.reverse
  | fuel + 1, i, acc =>
    if i < (MEMSIZE : ℚ) then
      match qNatIndex i with
      | some n =>
        if m n = 0 then acc.reverse
        else readStringAux m fuel (i + 1) (Char.ofNat (m n % 65536) :: acc)
      | none => readStringAux m fuel (i + 1) (Char.ofNat 0 :: acc)
    else acc.reverse

def readString (m : Mem) (addr : ℚ) : String :=
  String.mk (readStringAux m ((max 0 ((MEMSIZE : ℤ) - addr.floor)).toNat + 1) addr [])

/-! ### PRINT formatting (the `OpCode.PRINT` case of `executeInstruction`) -/

def isSpecFlagPW (c : Char) : Bool :=
  c = '-' || c = '+' || c = ' ' || c = '#' || decDigit? c || c = '.'

/-- Precision extraction, `spec.match(/\.(\d+)/)`. -/
def precSearch : List Char → Option ℕ
  | [] => none
  | '.' :: r =>
    let ds := r.takeWhile decDigit?
    if ds = [] then precSearch r else some (decDigitsVal ds)
  | _ :: r => precSearch r

def printLoop (m : Mem) (fmt : List Char) (args : List (Option ℚ)) :
    ℕ → ℕ → ℕ → String → String
  | 0, _, _, out => out
  | fuel + 1, i, argIndex, out =>
    match fmt.get? i with
    | none => out
    | some c =>
      if c = '%' then
        let spec := (fmt.drop (i + 1)).takeWhile isSpecFlagPW
        let j := i + 1 + spec.length
        match fmt.get? j with
        | none => out
        | some ty =>
          let val : Option ℚ := (args.get? argIndex).bind id
          let precision := (precSearch spec).getD 6
          let part : String :=
            match val with
            | none => "%{spec}" ++ String.mk [ty]
            | some v =>
              if ty = 'd' then intToDec v.floor
              else if ty = 'f' then jsToFixed v precision
              else if ty = 'x' then intToHex v.floor
              else if ty = 'c' then String.mk [jsFromCharCode v.floor]
              else if ty = 's' then readString m v
              else "%" ++ String.mk spec ++ String.mk [ty]
          printLoop m fmt args fuel (j + 1) (argIndex + 1) (out ++ part)
      else printLoop m fmt args fuel (i + 1) argIndex (out ++ String.mk [c])

/-- Number of iterations of a JS `for (let k = 0; k < n; k++)` loop
whose bound is the (possibly fractional) payload. -/
def loopCount (n : ℚ) : ℕ := n.ceil.toNat

/-- Model of `executeInstruction`. The result pairs the state after the
call with the message of a thrown exception, if any; mutations performed
before a throw are kept, as in JS. Opcodes that have no case in the
source switch (`GLOAD`, `GSTORE`, `CALL`, `RET`, `FREE`, `FRAME`,
`ITOF`, `LE`, `GE`, `DUP`) fall through and leave the state unchanged. -/
def exec (host : Host) (instr : Instr) (vm : VM) : VM × Option String :=
  match instr.op with
  | .HALT => ({vm with state := .TERMINATED}, none)
  | .LIT => ({vm with stack := argQ instr :: vm.stack}, none)
  | .POP => ({vm with stack := vm.stack.tail}, none)
  | .ADD =>
    let b := vm.stack.headD 0
    let a := vm.stack.tail.headD 0
    ({vm with stack := (a + b) :: vm.stack.tail.tail}, none)
  | .SUB =>
    let b := vm.stack.headD 0
    let a := vm.stack.tail.headD 0
    ({vm with stack := (a - b) :: vm.stack.tail.tail}, none)
  | .MUL =>
    let b := vm.stack.headD 0
    let a := vm.stack.tail.headD 0
    ({vm with stack := (a * b) :: vm.stack.tail.tail}, none)
  | .DIV =>
    let b := vm.stack.headD 0
    let a := vm.stack.tail.headD 0
    if b = 0 then ({vm with stack := vm.stack.tail.tail}, some "Divide by zero")
    else ({vm with stack := (a / b) :: vm.stack.tail.tail}, none)
  | .MOD =>
    let b := vm.stack.headD 0
    let a := vm.stack.tail.headD 0
    ({vm with stack := host.hrem a b :: vm.stack.tail.tail}, none)
  | .EQ =>
    let b := vm.stack.headD 0
    let a := vm.stack.tail.headD 0
    ({vm with stack := (if b = a then (1 : ℚ) else 0) :: vm.stack.tail.tail}, none)
  | .NEQ =>
    let b := vm.stack.headD 0
    let a := vm.stack.tail.headD 0
    ({vm with stack := (if b ≠ a then (1 : ℚ) else 0) :: vm.stack.tail.tail}, none)
  | .LT =>
    let b := vm.stack.headD 0
    let a := vm.stack.tail.headD 0
    ({vm with stack := (if a < b then (1 : ℚ) else 0) :: vm.stack.tail.tail}, none)
  | .GT =>
    let b := vm.stack.headD 0
    let a := vm.stack.tail.headD 0
    ({vm with stack := (if b < a then (1 : ℚ) else 0) :: vm.stack.tail.tail}, none)
  | .JMP => ({vm with pc := argQ instr}, none)
  | .JZ =>
    let val := vm.stack.headD 0
    if val = 0 then ({vm with stack := vm.stack.tail, pc := argQ instr}, none)
    else ({vm with stack := vm.stack.tail}, none)
  | .PRINT =>
    let fmtAddr := vm.stack.headD 0
    let s1 := vm.stack.tail
    let fmt := readString vm.memory fmtAddr
    let np := loopCount (argQ instr)
    let popped := s1.take np
    let argsJs : List (Option ℚ) :=
      (popped.map some ++ List.replicate (np - popped.length) none).reverse
    let output := printLoop vm.memory fmt.data argsJs (fmt.length + 1) 0 0 ""
    ({vm with stack := s1.drop np, out := vm.out ++ [output]}, none)
  | .SCANF =>
    let fmtAddr := vm.stack.headD 0
    let s1 := vm.stack.tail
    let fmt := readString vm.memory fmtAddr
    let np := loopCount (argQ instr)
    let popped := s1.take np
    let argsJs : List ℚ := (popped ++ List.replicate (np - popped.length) host.nan).reverse
    ({vm with stack := s1.drop np, state := .WAITING_INPUT,
              scanContext := some ⟨fmt, argsJs⟩}, none)
  | .STORE =>
    let val := vm.stack.headD 0
    let r := setMem32 host vm.memory (vm.fp + argQ instr) val
    ({vm with stack := vm.stack.tail, memory := r.1}, r.2)
  | .LOAD =>
    match getMem32 host vm.memory (vm.fp + argQ instr) with
    | .ok v => ({vm with stack := v :: vm.stack}, none)
    | .error e => (vm, some e)
  | .STORE64 =>
    let val := vm.stack.headD 0
    let r := setMem64 host vm.memory (vm.fp + argQ instr) val
    ({vm with stack := vm.stack.tail, memory := r.1}, r.2)
  | .LOAD64 =>
    match getMem64 host vm.memory (vm.fp + argQ instr) with
    | .ok v => ({vm with stack := v :: vm.stack}, none)
    | .error e => (vm, some e)
  | .P_PUSH => ({vm with stack := (vm.fp + argQ instr) :: vm.stack}, none)
  | .S_IND =>
    let val := vm.stack.headD 0
    let addr := vm.stack.tail.headD 0
    let r := setMem32 host vm.memory addr val
    ({vm with stack := vm.stack.tail.tail, memory := r.1}, r.2)
  | .L_IND =>
    let addr := vm.stack.headD 0
    match getMem32 host vm.memory addr with
    | .ok v => ({vm with stack := v :: vm.stack.tail}, none)
    | .error e => ({vm with stack := vm.stack.tail}, some e)
  | .S_IND64 =>
    let val := vm.stack.headD 0
    let addr := vm.stack.tail.headD 0
    let r := setMem64 host vm.memory addr val
    ({vm with stack := vm.stack.tail.tail, memory := r.1}, r.2)
  | .L_IND64 =>
    let addr := vm.stack.headD 0
    match getMem64 host vm.memory addr with
    | .ok v => ({vm with stack := v :: vm.stack.tail}, none)
    | .error e => ({vm with stack := vm.stack.tail}, some e)
  | .MALLOC =>
    let size := vm.stack.headD 0
    let ptr := vm.heapPointer
    ({vm with stack := ptr :: vm.stack.tail, heapPointer := vm.heapPointer + size}, none)
  | .SIN => ({vm with stack := host.hsin (vm.stack.headD 0) :: vm.stack.tail}, none)
  | .COS => ({vm with stack := host.hcos (vm.stack.headD 0) :: vm.stack.tail}, none)
  | .TAN => ({vm with stack := host.htan (vm.stack.headD 0) :: vm.stack.tail}, none)
  | .SQRT => ({vm with stack := host.hsqrt (vm.stack.headD 0) :: vm.stack.tail}, none)
  | .ABS => ({vm with stack := |vm.stack.headD 0| :: vm.stack.tail}, none)
  | .POW =>
    let e := vm.stack.headD 0
    let b := vm.stack.tail.headD 0
    ({vm with stack := host.hpow b e :: vm.stack.tail.tail}, none)
  | _ => (vm, none)

/-! ### The step driver -/

def segfaultLine (e : String) : String :=
  "\nSegmentation Fault (Core Dumped): " ++ e ++ "\n"

def codeAt (code : List Instr) (pc : ℚ) : Option Instr :=
  (qNatIndex pc).bind fun n => code.get? n

/-- Body of the cycle loop of `step`. Accessing `this.code[this.pc]` at
an invalid index yields `undefined` and the subsequent property read
inside `executeInstruction` throws, which the catch turns into a
segmentation fault, like every other runtime fault. -/
def stepLoop (host : Host) : ℕ → VM → Bool × VM
  | 0, _vm => (true, _vm)
  | n + 1, vm =>
    if (vm.code.length : ℚ) ≤ vm.pc then
      (false, {vm with state := .TERMINATED})
    else
      let vm1 : VM := {vm with pc := vm.pc + 1}
      let r : VM × Option String :=
        match codeAt vm.code vm.pc with
        | some instr => exec host instr vm1
        | none => (vm1, some "Cannot read properties of undefined (reading \x27op\x27)")
      match r.2 with
      | some e => (false, {r.1 with state := .TERMINATED, out := r.1.out ++ [segfaultLine e]})
      | none =>
        if r.1.state = .TERMINATED ∨ r.1.state = .WAITING_INPUT then (false, r.1)
        else stepLoop host n r.1

/-- Model of `step(cycles)`: returns whether the caller should keep
stepping, together with the state after the call. The function is total;
no exception can escape it. -/
def step (host : Host) (vm : VM) (cycles : ℕ) : Bool × VM :=
  if vm.state = .TERMINATED ∨ vm.state = .WAITING_INPUT then (false, vm)
  else stepLoop host cycles vm

/-! ### resolveInput (the scanf continuation) -/

def isScanFlag (c : Char) : Bool :=
  c = ' ' || c = '+' || c = '-' || c = '#' || c = '0'

/-- First index at or after `i` whose character fails `p`, model of the
index-advancing `while` loops of `resolveInput`. -/
def skipIdxWhile (p : Char → Bool) (fmt : List Char) (i : ℕ) : ℕ :=
  i + ((fmt.drop i).takeWhile p).length

/-- Byte-wise string write of a `%s` conversion: the characters of the
token followed by a NUL terminator; a throw aborts the remaining
writes. -/
def scanWriteStrAux (m : Mem) (addr : ℚ) : List Char → ℕ → Mem × Option String
  | [], k => setMemByte m (addr + (k : ℕ)) 0
  | c :: rest, k =>
    let r := setMemByte m (addr + (k : ℕ)) (c.toNat : ℚ)
    match r.2 with
    | some e => (r.1, some e)
    | none => scanWriteStrAux r.1 addr rest (k + 1)

/-- Write performed by one conversion of `resolveInput` for the token
`raw` at address `addr`; conversions other than `%d`, `%f`, `%c`, `%s`
consume their token and address but write nothing. -/
def writeConv (host : Host) (m : Mem) (ty : Option Char) (lm : Bool) (addr : ℚ)
    (raw : List Char) : Mem × Option String :=
  match ty with
  | some 'd' => setMem32 host m addr (jsParseIntOr0 raw)
  | some 'f' =>
    let v := jsParseFloatOr0 raw
    if lm then setMem64 host m addr v else setMem32 host m addr v
  | some 'c' =>
    let v : ℚ := match raw with | [] => host.nan | c :: _ => (c.toNat : ℚ)
    setMem32 host m addr v
  | some 's' => scanWriteStrAux m addr raw 0
  | _ => (m, none)

/-- Scanning loop of `resolveInput` over the captured format string:
`i` is the character index, `ii` the token index, `ti` the address
index. The loop breaks when tokens or addresses run out, and a thrown
write aborts it with the message. -/
def scanLoop (host : Host) (fmt : List Char) (args : List ℚ) (inputs : List (List Char)) :
    ℕ → ℕ → ℕ → ℕ → Mem → Mem × Option String
  | 0, _, _, _, m => (m, none)
  | fuel + 1, i, ii, ti, m =>
    match fmt.get? i with
    | none => (m, none)
    | some c =>
      if c = '%' then
        let i1 := skipIdxWhile isScanFlag fmt (i + 1)
        let i2 := skipIdxWhile decDigit? fmt i1
        let i3 := if fmt.get? i2 = some '.' then skipIdxWhile decDigit? fmt (i2 + 1) else i2
        let lmi : Bool × ℕ := if fmt.get? i3 = some 'l' then (true, i3 + 1) else (false, i3)
        let ty := fmt.get? lmi.2
        if inputs.length ≤ ii ∨ args.length ≤ ti then (m, none)
        else
          let raw := inputs.getD ii []
          let addr := args.getD ti 0
          let r := writeConv host m ty lmi.1 addr raw
          match r.2 with
          | some e => (r.1, some e)
          | none => scanLoop host fmt args inputs fuel (lmi.2 + 1) (ii + 1) (ti + 1) r.1
      else scanLoop host fmt args inputs fuel (i + 1) ii ti m

/-- Model of `resolveInput(input)`: no-op unless the process is waiting
with a captured scan context; otherwise runs the conversions and, when
no write throws, clears the context and resumes the process. -/
def resolveInput (host : Host) (vm : VM) (input : String) : VM × Option String :=
  if vm.state ≠ PState.WAITING_INPUT then (vm, none)
  else
    match vm.scanContext with
    | none => (vm, none)
    | some ctx =>
      let inputs := jsTrimSplitWs input.data
      let fmtL := ctx.fmt.data
      let r := scanLoop host fmtL ctx.args inputs (fmtL.length + 1) 0 0 0 vm.memory
      match r.2 with
      | some e => ({vm with memory := r.1}, some e)
      | none => ({vm with memory := r.1, scanContext := none, state := .RUNNING}, none)

/-! ### Process manager (the revision with named entries and the
terminated-process sweep) -/

structure ProcessEntry where
  vm : VM
  name : String
  startTime : ℕ
  memoryUsage : ℕ
  windowId : Option String

/-- Registry state: the `Map` keyed by pid in insertion order, the pid
counter, and a count of `notify()` fan-outs (the listener callbacks
themselves are host side). -/
structure PMState where
  processes : List (ℕ × ProcessEntry)
  nextPid : ℕ
  notifyCount : ℕ

def initPM : PMState := ⟨[], 100, 0⟩

structure ProcSnapshot where
  id : ℕ
  pid : ℕ
  name : String
  state : PState
  memoryUsage : ℕ
  startTime : ℕ
  windowId : Option String
deriving DecidableEq, Repr

def createProcess (pm : PMState) (name : String) (bytecode : List Instr)
    (data : List ℕ) (now : ℕ) : PMState × ℕ :=
  let pid := pm.nextPid
  let vm := initVM pid bytecode data
  ({ processes := pm.processes ++ [(pid, ⟨vm, name, now, 64, none⟩)]
     nextPid := pm.nextPid + 1
     notifyCount := pm.notifyCount + 1 }, pid)

def registerSystemProcess (pm : PMState) (name : String) (memoryUsage : ℕ)
    (windowId : Option String) (now : ℕ) : PMState × ℕ :=
  let pid := pm.nextPid
  let vm := initVM pid [] []
  ({ processes := pm.processes ++ [(pid, ⟨vm, name, now, memoryUsage, windowId⟩)]
     nextPid := pm.nextPid + 1
     notifyCount := pm.notifyCount + 1 }, pid)

/-- Model of `killProcess`: marks the VM terminated, removes the entry
and notifies; a silent no-op on an unknown pid. -/
def killProcess (pm : PMState) (pid : ℕ) : PMState :=
  if (pm.processes.find? fun p => p.1 == pid).isSome then
    { pm with
        processes := pm.processes.filter fun p => p.1 != pid
        notifyCount := pm.notifyCount + 1 }
  else pm

def killProcessByWindow (pm : PMState) (windowId : String) : PMState :=
  let kept := pm.processes.filter fun p => p.2.windowId != some windowId
  if kept.length = pm.processes.length then pm
  else { pm with processes := kept, notifyCount := pm.notifyCount + 1 }

/-- Model of the private `cleanupTerminated` sweep: removes every entry
whose VM has state TERMINATED, notifying when anything was removed. -/
def cleanupTerminated (pm : PMState) : PMState :=
  let kept := pm.processes.filter fun p => p.2.vm.state != PState.TERMINATED
  if kept.length = pm.processes.length then { pm with processes := kept }
  else { pm with processes := kept, notifyCount := pm.notifyCount + 1 }

/-- Model of `getProcessList`: sweep, then snapshot the remaining
entries. -/
def getProcessList (pm : PMState) : PMState × List ProcSnapshot :=
  let pm1 := cleanupTerminated pm
  (pm1, pm1.processes.map fun p =>
    { id := p.1, pid := p.1, name := p.2.name, state := p.2.vm.state
      memoryUsage := p.2.memoryUsage, startTime := p.2.startTime
      windowId := p.2.windowId })

/-! ### Compiler: shared data model -/

inductive TokType | KEYWORD | ID | NUMBER | STRING | CHAR | SYMBOL | EOF
deriving DecidableEq, Repr

structure Token where
  type : TokType
  value : String
  line : ℕ
deriving DecidableEq, Repr

def ttName : TokType → String
  | .KEYWORD => "KEYWORD"
  | .ID => "ID"
  | .NUMBER => "NUMBER"
  | .STRING => "STRING"
  | .CHAR => "CHAR"
  | .SYMBOL => "SYMBOL"
  | .EOF => "EOF"

/-- Compiler failure: either a thrown `Error` message or exhaustion of
the step fuel that makes the embedded recursions total. Every theorem
below is about `.ok` results or concrete executions, where the fuel
sentinel never occurs. -/
inductive CErr
  | noFuel
  | msg (m : String)
deriving DecidableEq, Repr

structure SymbolInfo where
  offset : ℚ
  type : String
  isArray : Bool
  arraySize : ℚ
  elementSize : ℕ
deriving DecidableEq, Repr

inductive CtrlCtx
  | loop (breakJumps : List ℕ) (continueTarget : Option ℕ) (pendingContinues : List ℕ)
  | switchCtx (breakJumps : List ℕ)
deriving DecidableEq, Repr

/-- Association-list model of a JS `Map` with string keys: `set`
overwrites in place or appends, preserving insertion order. -/
def alistGet? {α : Type} (m : List (String × α)) (k : String) : Option α :=
  (m.find? fun p => p.1 == k).map Prod.snd

def alistSet {α : Type} (m : List (String × α)) (k : String) (v : α) : List (String × α) :=
  if (m.find? fun p => p.1 == k).isSome then
    m.map fun p => if p.1 == k then (k, v) else p
  else m ++ [(k, v)]

/-- Per-compile mutable state of the `Compiler` class. -/
structure CompSt where
  tokens : List Token
  pos : ℕ
  instructions : List Instr
  locals : List (String × SymbolInfo)
  localOffset : ℚ
  dataSegment : List ℕ
  macros : List (String × String)
  warnings : List String
  controlStack : List CtrlCtx
deriving DecidableEq, Repr

/-! ### Preprocessor -/

structure PPSt where
  macros : List (String × String)
  condStack : List Bool
deriving DecidableEq, Repr

def ppEmitting (st : PPSt) : Bool := st.condStack.all fun b => b

def joinSpaces : List (List Char) → List Char
  | [] => []
  | [x] => x
  | x :: xs => x ++ ' ' :: joinSpaces xs

/-- Whether a line is treated as a directive: its trimmed form starts
with the hash character, the model of `trimmed.startsWith('#')`. -/
def isDirLine (line : List Char) : Bool :=
  (trimChars line).head? == some '#'

/-- Processing of one source line by the preprocessor: the emitted
output line paired with the updated macro table and conditional stack.
Directive lines always emit a blank line; unrecognised directives
(including `#include`) are inert. -/
def ppLine (st : PPSt) (line : List Char) : List Char × PPSt :=
  let trimmed := trimChars line
  if trimmed.head? == some '#' then
    let parts := splitWsRegex trimmed.tail
    let cmd := parts.headD []
    let arg1 : Option (List Char) := parts.get? 1
    let argRest := joinSpaces (parts.drop 2)
    let hasArg1 : Bool :=
      match arg1 with
      | some a => (alistGet? st.macros (String.mk a)).isSome
      | none => false
    let st' : PPSt :=
      if cmd = "define".data then
        if ppEmitting st then
          match arg1 with
          | some a =>
            if a = [] then st
            else
              let mval := String.mk (if argRest = [] then "1".data else argRest)
              { st with macros := alistSet st.macros (String.mk a) mval }
          | none => st
        else st
      else if cmd = "ifdef".data then
        { st with condStack := st.condStack ++ [if ppEmitting st then hasArg1 else false] }
      else if cmd = "ifndef".data then
        { st with condStack := st.condStack ++ [if ppEmitting st then !hasArg1 else false] }
      else if cmd = "endif".data then
        { st with condStack := st.condStack.dropLast }
      else st
    ([], st')
  else ((if ppEmitting st then line else []), st)

/-- The preprocessor loop over all lines. -/
def ppRun (st : PPSt) : List (List Char) → List (List Char) × PPSt
  | [] => ([], st)
  | l :: rest =>
    let r1 := ppLine st l
    let r2 := ppRun r1.2 rest
    (r1.1 :: r2.1, r2.2)

/-- Model of `preprocess`: blank out directives and suppressed lines,
failing on an unterminated conditional block. -/
def preprocess (st : PPSt) (source : List Char) : Except CErr (List Char × PPSt) :=
  let r := ppRun st (splitNl source)
  if r.2.condStack = [] then .ok (joinNl r.1, r.2)
  else .error (.msg "Unterminated #ifdef/#ifndef block")

/-! ### Lexer -/

def kwList : List String :=
  ["int", "void", "char", "float", "double", "return", "if", "else", "while", "for",
   "do", "switch", "case", "default", "break", "continue", "printf", "scanf",
   "malloc", "free", "sin", "cos", "tan", "sqrt", "pow", "abs"]

def isAlphaC (c : Char) : Bool :=
  ('a' ≤ c && c ≤ 'z') || ('A' ≤ c && c ≤ 'Z') || c = '_'

def isNumC (c : Char) : Bool := decDigit? c || c = '.'

/-- Escape decoding shared by string and char literals: `n t r 0` map
to their control characters, everything else (including backslash and
both quotes) maps to itself. -/
def escChar (c : Char) : Char :=
  if c = 'n' then '\n'
  else if c = 't' then '\t'
  else if c = 'r' then '\r'
  else if c = '0' then Char.ofNat 0
  else c

/-- Body of a string literal: characters up to the closing quote, with
escape processing; an unterminated literal is cut off at the end of the
input. Returns the decoded value and the rest of the input. -/
def lexStrBody : List Char → List Char → List Char × List Char
  | [], acc => (acc.reverse, [])
  | '"' :: rest, acc => (acc.reverse, rest)
  | ['\\'], acc => (acc.reverse, [])
  | '\\' :: e :: rest, acc => lexStrBody rest (escChar e :: acc)
  | c :: rest, acc => lexStrBody rest (c :: acc)

def twoSyms : List String := ["==", "!=", "<=", ">="]

def oneSyms : List Char :=
  ['+', '-', '*', '/', '%', '=', '(', ')', '{', '}', ';', ',', '<', '>', '&', '[', ']', ':']

/-- Model of `tokenizeString`. Lexer errors are raised through
`this.error`, which on a fresh compiler instance has no current token
and reports line `?`. -/
def lex (fuel : ℕ) (cs : List Char) (line : ℕ) (acc : List Token) :
    Except CErr (List Token) :=
  match fuel with
  | 0 => .error .noFuel
  | fuel + 1 =>
    match cs with
    | [] => .ok acc.reverse
    | c :: rest =>
      if c = '\n' then lex fuel rest (line + 1) acc
      else if isJsWs c then lex fuel rest line acc
      else if c = '/' ∧ rest.head? = some '/' then
        lex fuel (cs.dropWhile fun x => x ≠ '\n') line acc
      else if c = '"' then
        let r := lexStrBody rest []
        lex fuel r.2 line (⟨.STRING, String.mk r.1, line⟩ :: acc)
      else if c = '\'' then
        match rest with
        | [] => .error (.msg "Line ?: Unexpected EOF in char literal")
        | '\\' :: rest2 =>
          match rest2 with
          | [] => .error (.msg "Line ?: Unexpected EOF in char literal escape")
          | e :: rest3 =>
            match rest3 with
            | '\'' :: rest4 => lex fuel rest4 line (⟨.CHAR, String.mk [escChar e], line⟩ :: acc)
            | _ => .error (.msg "Line ?: Expected closing single quote")
        | v :: rest2 =>
          match rest2 with
          | '\'' :: rest3 => lex fuel rest3 line (⟨.CHAR, String.mk [v], line⟩ :: acc)
          | _ => .error (.msg "Line ?: Expected closing single quote")
      else if isAlphaC c then
        let run := cs.takeWhile fun x => isAlphaC x || isNumC x
        let v := String.mk run
        lex fuel (cs.drop run.length) line
          (⟨if kwList.contains v then .KEYWORD else .ID, v, line⟩ :: acc)
      else if isNumC c then
        let run := cs.takeWhile isNumC
        lex fuel (cs.drop run.length) line (⟨.NUMBER, String.mk run, line⟩ :: acc)
      else if twoSyms.contains (String.mk (cs.take 2)) then
        lex fuel (cs.drop 2) line (⟨.SYMBOL, String.mk (cs.take 2), line⟩ :: acc)
      else if oneSyms.contains c then
        lex fuel rest line (⟨.SYMBOL, String.mk [c], line⟩ :: acc)
      else lex fuel rest line acc

/-- Model of `expandMacros`: one pass; a defined identifier is replaced
by the tokens of its re-lexed body at the original line. -/
def expandMacros (macros : List (String × String)) : List Token → Except CErr (List Token)
  | [] => .ok []
  | t :: rest =>
    if t.type = .ID then
      match alistGet? macros t.value with
      | some mv => do
        let ex ← lex (mv.data.length + 1) mv.data t.line []
        let tail ← expandMacros macros rest
        .ok (ex ++ tail)
      | none => do
        let tail ← expandMacros macros rest
        .ok (t :: tail)
    else do
      let tail ← expandMacros macros rest
      .ok (t :: tail)

/-! ### Format specifier counting for printf and scanf -/

def fmtTypes : List Char := ['d', 'f', 'c', 's', 'x']

/-- Number of matches of the argument-counting regex
`%[-+ #0-9.]*l?[dfcsx]` (the optional `l` only for scanf), scanning
non-overlapping matches left to right exactly as `String.match` with
the global flag: at a `%`, the flag class is consumed greedily and the
next character must be a type character; on failure the scan restarts
there. The index advances on every iteration, so the fuel
`fmt.length + 1` never runs out at the top-level entry. -/
def countSpecsAux (withL : Bool) (fmt : List Char) : ℕ → ℕ → ℕ
  | 0, _ => 0
  | fuel + 1, i =>
    match fmt.get? i with
    | none => 0
    | some c =>
      if c = '%' then
        let j := skipIdxWhile isSpecFlagPW fmt (i + 1)
        match fmt.get? j with
        | none => 0
        | some a =>
          if withL ∧ a = 'l' then
            match fmt.get? (j + 1) with
            | some b =>
              if fmtTypes.contains b then 1 + countSpecsAux withL fmt fuel (j + 2)
              else countSpecsAux withL fmt fuel (j + 1)
            | none => 0
          else if fmtTypes.contains a then 1 + countSpecsAux withL fmt fuel (j + 1)
          else countSpecsAux withL fmt fuel j
      else countSpecsAux withL fmt fuel (i + 1)

def countSpecs (withL : Bool) (l : List Char) : ℕ :=
  countSpecsAux withL l (l.length + 1) 0

/-! ### Parser infrastructure -/

def peekT (s : CompSt) : Option Token := s.tokens.get? s.pos

/-- Thrown when JS reads a property of `undefined`, i.e. when `peek()`
or `consume()` runs past the token array. -/
def tyErr : CErr := .msg "TypeError: Cannot read properties of undefined"

/-- Model of `this.error(msg)`: prefixes the line of the current (or
last) token. -/
def errAt (s : CompSt) (m : String) : CErr :=
  match (s.tokens.get? s.pos).orElse (fun _ => s.tokens.getLast?) with
  | some tok => .msg ("Line " ++ (if tok.line = 0 then "?" else toString tok.line) ++ ": " ++ m)
  | none => .msg ("Line ?: " ++ m)

/-- Model of `emit`: appends and returns the index of the appended
instruction. -/
def emitI (s : CompSt) (op : OpCode) (arg : Option ℚ) : CompSt × ℕ :=
  ({ s with instructions := s.instructions ++ [⟨op, arg⟩] }, s.instructions.length)

def emit1 (s : CompSt) (op : OpCode) (arg : Option ℚ) : CompSt := (emitI s op arg).1

def setArgL (l : List Instr) (idx : ℕ) (v : ℚ) : List Instr :=
  match l.get? idx with
  | some ins => l.set idx { ins with arg := some v }
  | none => l

/-- Model of `this.instructions[idx].arg = target`, the jump patch. -/
def setArg (s : CompSt) (idx : ℕ) (v : ℕ) : CompSt :=
  { s with instructions := setArgL s.instructions idx (v : ℚ) }

/-- Model of `consume(type?, val?)` with its missing-semicolon hint. -/
def consume (s : CompSt) (ty : Option TokType) (v : Option String) :
    Except CErr (Token × CompSt) :=
  match s.tokens.get? s.pos with
  | none => .error tyErr
  | some t =>
    if ty = some .SYMBOL ∧ v = some ";" ∧
        (t.type = .KEYWORD ∨ (t.type = .ID ∧ (t.value = "printf" ∨ t.value = "main"))) then
      .error (errAt s ("Did you forget a semicolon before \x27" ++ t.value ++ "\x27?"))
    else if ty.isSome ∧ ty ≠ some t.type then
      .error (errAt s ("Expected " ++ ttName (ty.getD .EOF) ++ ", got " ++ ttName t.type ++
        " \x27" ++ t.value ++ "\x27"))
    else if v.isSome ∧ v ≠ some t.value then
      .error (errAt s ("Expected \x27" ++ v.getD "" ++ "\x27, got \x27" ++ t.value ++ "\x27"))
    else .ok (t, { s with pos := s.pos + 1 })

/-- Model of `addStringLiteral`: interns the UTF-16 code units plus a
NUL terminator and returns the previous end of the data segment. -/
def addStringLiteral (s : CompSt) (str : String) : CompSt × ℕ :=
  ({ s with dataSegment := s.dataSegment ++ str.data.map Char.toNat ++ [0] },
   s.dataSegment.length)

def charCode0Q (v : String) : ℚ :=
  match v.data with
  | [] => 0
  | c :: _ => (c.toNat : ℚ)

def mathOpsKV : List (String × OpCode) :=
  [("sin", .SIN), ("cos", .COS), ("tan", .TAN), ("sqrt", .SQRT), ("pow", .POW), ("abs", .ABS)]

/-! ### Expression parser (precedence climbing, second revision with
`NEQ`, `LE`, `GE` and the unary level) -/

mutual

def parseExpression : ℕ → CompSt → Except CErr CompSt
  | 0, _ => .error .noFuel
  | n + 1, s => parseAssignment n s

def parseAssignment : ℕ → CompSt → Except CErr CompSt
  | 0, _ => .error .noFuel
  | n + 1, s =>
    match peekT s with
    | none => .error tyErr
    | some t =>
      let nextv := (s.tokens.get? (s.pos + 1)).map Token.value
      if t.type = .ID ∧ nextv = some "=" then do
        let (tok, s1) ← consume s none none
        match alistGet? s1.locals tok.value with
        | none => .error (errAt s1 ("Undefined variable \x27" ++ tok.value ++ "\x27"))
        | some sym => do
          let (_, s2) ← consume s1 (some .SYMBOL) (some "=")
          let s3 ← parseAssignment n s2
          if sym.elementSize = 8 then
            .ok (emit1 (emit1 s3 .STORE64 (some sym.offset)) .LOAD64 (some sym.offset))
          else
            .ok (emit1 (emit1 s3 .STORE (some sym.offset)) .LOAD (some sym.offset))
      else
        parseEquality n s

def parseEquality : ℕ → CompSt → Except CErr CompSt
  | 0, _ => .error .noFuel
  | n + 1, s => do
    eqLoop n (← parseRelational n s)

def eqLoop : ℕ → CompSt → Except CErr CompSt
  | 0, _ => .error .noFuel
  | n + 1, s =>
    match peekT s with
    | none => .error tyErr
    | some t =>
      if t.value = "==" ∨ t.value = "!=" then do
        let (op, s1) ← consume s none none
        let s2 ← parseRelational n s1
        eqLoop n (emit1 s2 (if op.value = "==" then .EQ else .NEQ) none)
      else .ok s

def parseRelational : ℕ → CompSt → Except CErr CompSt
  | 0, _ => .error .noFuel
  | n + 1, s => do
    relLoop n (← parseAdditive n s)

def relLoop : ℕ → CompSt → Except CErr CompSt
  | 0, _ => .error .noFuel
  | n + 1, s =>
    match peekT s with
    | none => .error tyErr
    | some t =>
      if t.value = "<" ∨ t.value = ">" ∨ t.value = "<=" ∨ t.value = ">=" then do
        let (op, s1) ← consume s none none
        let s2 ← parseAdditive n s1
        let s3 :=
          if op.value = "<" then emit1 s2 .LT none
          else if op.value = ">" then emit1 s2 .GT none
          else if op.value = "<=" then emit1 s2 .LE none
          else emit1 s2 .GE none
        relLoop n s3
      else .ok s

def parseAdditive : ℕ → CompSt → Except CErr CompSt
  | 0, _ => .error .noFuel
  | n + 1, s => do
    addLoop n (← parseMultiplicative n s)

def addLoop : ℕ → CompSt → Except CErr CompSt
  | 0, _ => .error .noFuel
  | n + 1, s =>
    match peekT s with
    | none => .error tyErr
    | some t =>
      if t.value = "+" ∨ t.value = "-" then do
        let (op, s1) ← consume s none none
        let s2 ← parseMultiplicative n s1
        addLoop n (emit1 s2 (if op.value = "+" then .ADD else .SUB) none)
      else .ok s

def parseMultiplicative : ℕ → CompSt → Except CErr CompSt
  | 0, _ => .error .noFuel
  | n + 1, s => do
    mulLoop n (← parseUnary n s)

def mulLoop : ℕ → CompSt → Except CErr CompSt
  | 0, _ => .error .noFuel
  | n + 1, s =>
    match peekT s with
    | none => .error tyErr
    | some t =>
      if t.value = "*" ∨ t.value = "/" ∨ t.value = "%" then do
        let (op, s1) ← consume s none none
        let s2 ← parseUnary n s1
        mulLoop n (emit1 s2
          (if op.value = "*" then .MUL else if op.value = "/" then .DIV else .MOD) none)
      else .ok s

def parseUnary : ℕ → CompSt → Except CErr CompSt
  | 0, _ => .error .noFuel
  | n + 1, s =>
    match peekT s with
    | none => .error tyErr
    | some t =>
      if t.value = "!" then do
        let (_, s1) ← consume s none none
        let s2 ← parseUnary n s1
        .ok (emit1 (emit1 s2 .LIT (some 0)) .EQ none)
      else if t.value = "-" then do
        let (_, s1) ← consume s none none
        let s2 ← parseUnary n s1
        .ok (emit1 (emit1 s2 .LIT (some (-1))) .MUL none)
      else if t.value = "+" then do
        let (_, s1) ← consume s none none
        parseUnary n s1
      else parseTerm n s

def parseTerm : ℕ → CompSt → Except CErr CompSt
  | 0, _ => .error .noFuel
  | n + 1, s =>
    match peekT s with
    | none => .error tyErr
    | some t =>
      if t.value = "(" then do
        let (_, s1) ← consume s none none
        let s2 ← parseExpression n s1
        let (_, s3) ← consume s2 (some .SYMBOL) (some ")")
        .ok s3
      else if t.type = .KEYWORD ∧ (alistGet? mathOpsKV t.value).isSome then do
        let op := (alistGet? mathOpsKV t.value).getD .SIN
        let (_, s1) ← consume s none none
        let (_, s2) ← consume s1 (some .SYMBOL) (some "(")
        let s3 ← parseExpression n s2
        let s4 ←
          if op = .POW then do
            let (_, sa) ← consume s3 (some .SYMBOL) (some ",")
            parseExpression n sa
          else .ok s3
        let (_, s5) ← consume s4 (some .SYMBOL) (some ")")
        .ok (emit1 s5 op none)
      else if t.type = .NUMBER then do
        let (tok, s1) ← consume s none none
        .ok (emit1 s1 .LIT (some (jsParseFloatOr0 tok.value.data)))
      else if t.type = .CHAR then do
        let (tok, s1) ← consume s none none
        .ok (emit1 s1 .LIT (some (charCode0Q tok.value)))
      else if t.type = .STRING then do
        let (tok, s1) ← consume s none none
        let r := addStringLiteral s1 tok.value
        .ok (emit1 r.1 .LIT (some (r.2 : ℚ)))
      else if t.type = .ID then do
        let (tok, s1) ← consume s none none
        match alistGet? s1.locals tok.value with
        | none => .error (errAt s1 ("Undefined \x27" ++ tok.value ++ "\x27"))
        | some sym =>
          match peekT s1 with
          | none => .error tyErr
          | some t2 =>
            if t2.value = "[" then do
              let (_, s2) ← consume s1 none none
              let s3 := emit1 s2 .P_PUSH (some sym.offset)
              let s4 ← parseExpression n s3
              let s5 := emit1 (emit1 (emit1 s4 .LIT (some (sym.elementSize : ℚ))) .MUL none)
                          .ADD none
              let (_, s6) ← consume s5 (some .SYMBOL) (some "]")
              match peekT s6 with
              | none => .error tyErr
              | some t3 =>
                if t3.value = "=" then do
                  let (_, s7) ← consume s6 none none
                  let s8 ← parseExpression n s7
                  let s9 := if sym.elementSize = 8 then emit1 s8 .S_IND64 none
                            else emit1 s8 .S_IND none
                  .ok (emit1 s9 .LIT (some 0))
                else
                  .ok (if sym.elementSize = 8 then emit1 s6 .L_IND64 none
                       else emit1 s6 .L_IND none)
            else
              .ok (if sym.elementSize = 8 then emit1 s1 .LOAD64 (some sym.offset)
                   else emit1 s1 .LOAD (some sym.offset))
      else if t.value = "*" then do
        let (_, s1) ← consume s none none
        let s2 ← parseTerm n s1
        .ok (emit1 s2 .L_IND none)
      else if t.value = "&" then do
        let (_, s1) ← consume s none none
        let (tok, s2) ← consume s1 (some .ID) none
        match alistGet? s2.locals tok.value with
        | none => .error (errAt s2 ("Undefined \x27" ++ tok.value ++ "\x27"))
        | some sym => .ok (emit1 s2 .P_PUSH (some sym.offset))
      else .error (errAt s ("Unexpected token " ++ t.value))

end

/-! ### Control-flow context operations. The source mutates context
objects aliased from the control stack; here every mutation is a stack
update, which is equivalent because a context is only mutated while it
is reachable on the stack. -/

def isLoopCtx : CtrlCtx → Bool
  | .loop _ _ _ => true
  | .switchCtx _ => false

def pushLoopCtx (s : CompSt) (ct : Option ℕ) : CompSt :=
  { s with controlStack := s.controlStack ++ [.loop [] ct []] }

def pushSwitchCtx (s : CompSt) : CompSt :=
  { s with controlStack := s.controlStack ++ [.switchCtx []] }

def popCtx (s : CompSt) (expectLoop : Bool) : Except CErr CompSt :=
  match s.controlStack.getLast? with
  | some c =>
    if isLoopCtx c = expectLoop then .ok { s with controlStack := s.controlStack.dropLast }
    else .error (errAt s "Invalid control flow structure")
  | none => .error (errAt s "Invalid control flow structure")

def topBreaks (s : CompSt) : List ℕ :=
  match s.controlStack.getLast? with
  | some (.loop bj _ _) => bj
  | some (.switchCtx bj) => bj
  | none => []

def patchBreaksTop (s : CompSt) (target : ℕ) : CompSt :=
  { s with instructions :=
      (topBreaks s).foldl (fun l idx => setArgL l idx (target : ℚ)) s.instructions }

def patchPendContTop (s : CompSt) (target : ℕ) : CompSt :=
  match s.controlStack.getLast? with
  | some (.loop bj ct pend) =>
    { s with
        instructions := pend.foldl (fun l idx => setArgL l idx (target : ℚ)) s.instructions
        controlStack := s.controlStack.dropLast ++ [.loop bj ct []] }
  | _ => s

def setContTargetTop (s : CompSt) (t : ℕ) : CompSt :=
  match s.controlStack.getLast? with
  | some (.loop bj _ pend) =>
    { s with controlStack := s.controlStack.dropLast ++ [.loop bj (some t) pend] }
  | _ => s

def pushBreakTop (s : CompSt) (idx : ℕ) : CompSt :=
  match s.controlStack.getLast? with
  | some (.loop bj ct pend) =>
    { s with controlStack := s.controlStack.dropLast ++ [.loop (bj ++ [idx]) ct pend] }
  | some (.switchCtx bj) =>
    { s with controlStack := s.controlStack.dropLast ++ [.switchCtx (bj ++ [idx])] }
  | none => s

/-- Index of the innermost loop context, the model of
`findNearestLoopContext`. -/
def findLoopIdx (l : List CtrlCtx) : Option ℕ :=
  match l.reverse.findIdx? isLoopCtx with
  | some k => some (l.length - 1 - k)
  | none => none

def loopCtxAt (s : CompSt) (i : ℕ) : Option (List ℕ × Option ℕ × List ℕ) :=
  match s.controlStack.get? i with
  | some (.loop bj ct pend) => some (bj, ct, pend)
  | _ => none

def pushPendContAt (s : CompSt) (i : ℕ) (idx : ℕ) : CompSt :=
  match s.controlStack.get? i with
  | some (.loop bj ct pend) =>
    { s with controlStack := s.controlStack.set i (.loop bj ct (pend ++ [idx])) }
  | _ => s

/-- Model of `parseCaseConstant`. -/
def parseCaseConstant (s : CompSt) : Except CErr (ℚ × CompSt) :=
  match peekT s with
  | none => .error tyErr
  | some t =>
    if t.type = .NUMBER then do
      let (tok, s1) ← consume s none none
      .ok (jsParseFloatOr0 tok.value.data, s1)
    else if t.type = .CHAR then do
      let (tok, s1) ← consume s none none
      .ok (charCode0Q tok.value, s1)
    else if t.value = "-" then do
      let (_, s1) ← consume s none none
      let (num, s2) ← consume s1 (some .NUMBER) none
      .ok (-(jsParseFloatOr0 num.value.data), s2)
    else .error (errAt s ("Expected constant in case label, got " ++ t.value))

/-- Dispatch sequence emitted at the end of a switch for each case, in
declaration order: `DUP; LIT v; EQ; JZ next; POP; JMP target; next:`. -/
def emitDispatch : CompSt → List (ℚ × ℕ) → CompSt
  | s, [] => s
  | s, e :: rest =>
    let s3 := emit1 (emit1 (emit1 s .DUP none) .LIT (some e.1)) .EQ none
    let rjz := emitI s3 .JZ (some 0)
    let s6 := emit1 (emit1 rjz.1 .POP none) .JMP (some (e.2 : ℚ))
    emitDispatch (setArg s6 rjz.2 s6.instructions.length) rest

/-- Loop consuming `, expr` once per expected printf or scanf value
argument. -/
def argsLoop (exprFuel : ℕ) : ℕ → CompSt → Except CErr CompSt
  | 0, s => .ok s
  | k + 1, s => do
    let (_, s1) ← consume s (some .SYMBOL) (some ",")
    let s2 ← parseExpression exprFuel s1
    argsLoop exprFuel k s2

/-! ### Statement parser -/

mutual

def parseStatement : ℕ → CompSt → Except CErr CompSt
  | 0, _ => .error .noFuel
  | n + 1, s =>
    match peekT s with
    | none => .error tyErr
    | some t =>
      if t.value = "int" ∨ t.value = "float" ∨ t.value = "char" ∨ t.value = "double" then do
        let (tok, s1) ← consume s none none
        parseDeclarationList n tok.value true s1
      else if t.value = "if" then do
        let (_, s1) ← consume s none none
        let (_, s2) ← consume s1 (some .SYMBOL) (some "(")
        let s3 ← parseExpression n s2
        let (_, s4) ← consume s3 (some .SYMBOL) (some ")")
        let rjz := emitI s4 .JZ (some 0)
        let (_, s5) ← consume rjz.1 (some .SYMBOL) (some "\x7b")
        let s6 ← stmtsUntilRBrace n s5
        let (_, s7) ← consume s6 (some .SYMBOL) (some "\x7d")
        match peekT s7 with
        | none => .error tyErr
        | some t2 =>
          if t2.value = "else" then do
            let rj := emitI s7 .JMP (some 0)
            let s8 := setArg rj.1 rjz.2 rj.1.instructions.length
            let (_, s9) ← consume s8 none none
            let (_, s10) ← consume s9 (some .SYMBOL) (some "\x7b")
            let s11 ← stmtsUntilRBrace n s10
            let (_, s12) ← consume s11 (some .SYMBOL) (some "\x7d")
            .ok (setArg s12 rj.2 s12.instructions.length)
          else
            .ok (setArg s7 rjz.2 s7.instructions.length)
      else if t.value = "while" then do
        let (_, s1) ← consume s none none
        let condIdx := s1.instructions.length
        let s2 := pushLoopCtx s1 (some condIdx)
        let (_, s3) ← consume s2 (some .SYMBOL) (some "(")
        let s4 ← parseExpression n s3
        let (_, s5) ← consume s4 (some .SYMBOL) (some ")")
        let rjz := emitI s5 .JZ (some 0)
        let (_, s6) ← consume rjz.1 (some .SYMBOL) (some "\x7b")
        let s7 ← stmtsUntilRBrace n s6
        let (_, s8) ← consume s7 (some .SYMBOL) (some "\x7d")
        let s9 := emit1 s8 .JMP (some (condIdx : ℚ))
        let endIdx := s9.instructions.length
        let s10 := patchPendContTop (patchBreaksTop (setArg s9 rjz.2 endIdx) endIdx) condIdx
        popCtx s10 true
      else if t.value = "do" then do
        let (_, s1) ← consume s none none
        let bodyIdx := s1.instructions.length
        let s2 := pushLoopCtx s1 none
        let (_, s3) ← consume s2 (some .SYMBOL) (some "\x7b")
        let s4 ← stmtsUntilRBrace n s3
        let (_, s5) ← consume s4 (some .SYMBOL) (some "\x7d")
        let (_, s6) ← consume s5 (some .KEYWORD) (some "while")
        let condIdx := s6.instructions.length
        let s7 := patchPendContTop (setContTargetTop s6 condIdx) condIdx
        let (_, s8) ← consume s7 (some .SYMBOL) (some "(")
        let s9 ← parseExpression n s8
        let (_, s10) ← consume s9 (some .SYMBOL) (some ")")
        let (_, s11) ← consume s10 (some .SYMBOL) (some ";")
        let rjz := emitI s11 .JZ (some 0)
        let s12 := emit1 rjz.1 .JMP (some (bodyIdx : ℚ))
        let endIdx := s12.instructions.length
        let s13 := patchBreaksTop (setArg s12 rjz.2 endIdx) endIdx
        popCtx s13 true
      else if t.value = "for" then do
        let (_, s1) ← consume s none none
        let (_, s2) ← consume s1 (some .SYMBOL) (some "(")
        let s3 ←
          match peekT s2 with
          | none => .error tyErr
          | some ti =>
            if ti.value = "int" ∨ ti.value = "float" ∨ ti.value = "char" ∨
                ti.value = "double" then do
              let (tok, sa) ← consume s2 none none
              parseDeclarationList n tok.value true sa
            else if ti.value ≠ ";" then do
              let sa ← parseExpression n s2
              let (_, sc) ← consume (emit1 sa .POP none) (some .SYMBOL) (some ";")
              .ok sc
            else do
              let (_, sa) ← consume s2 (some .SYMBOL) (some ";")
              .ok sa
        let condIdx := s3.instructions.length
        let s4 ←
          match peekT s3 with
          | none => .error tyErr
          | some tc =>
            if tc.value ≠ ";" then parseExpression n s3
            else .ok (emit1 s3 .LIT (some 1))
        let rjz := emitI s4 .JZ (some 0)
        let (_, s5) ← consume rjz.1 (some .SYMBOL) (some ";")
        let rbody := emitI s5 .JMP (some 0)
        let incIdx := rbody.1.instructions.length
        let s6 := pushLoopCtx rbody.1 (some incIdx)
        let s7 ←
          match peekT s6 with
          | none => .error tyErr
          | some tp =>
            if tp.value ≠ ")" then do
              let sa ← parseExpression n s6
              .ok (emit1 sa .POP none)
            else .ok s6
        let (_, s8) ← consume s7 (some .SYMBOL) (some ")")
        let s9 := emit1 s8 .JMP (some (condIdx : ℚ))
        let bodyIdx := s9.instructions.length
        let s10 := setArg s9 rbody.2 bodyIdx
        let (_, s11) ← consume s10 (some .SYMBOL) (some "\x7b")
        let s12 ← stmtsUntilRBrace n s11
        let (_, s13) ← consume s12 (some .SYMBOL) (some "\x7d")
        let s14 := emit1 s13 .JMP (some (incIdx : ℚ))
        let endIdx := s14.instructions.length
        let s15 := patchPendContTop (patchBreaksTop (setArg s14 rjz.2 endIdx) endIdx) incIdx
        popCtx s15 true
      else if t.value = "switch" then parseSwitchStatement n s
      else if t.value = "break" then do
        let (_, s1) ← consume s none none
        let (_, s2) ← consume s1 (some .SYMBOL) (some ";")
        if s2.controlStack = [] then
          .error (errAt s2 "\x27break\x27 not inside loop or switch")
        else
          let r := emitI s2 .JMP (some 0)
          .ok (pushBreakTop r.1 r.2)
      else if t.value = "continue" then do
        let (_, s1) ← consume s none none
        let (_, s2) ← consume s1 (some .SYMBOL) (some ";")
        match findLoopIdx s2.controlStack with
        | none => .error (errAt s2 "\x27continue\x27 not inside loop")
        | some li =>
          match loopCtxAt s2 li with
          | some (_, some target, _) => .ok (emit1 s2 .JMP (some (target : ℚ)))
          | _ =>
            let r := emitI s2 .JMP (some 0)
            .ok (pushPendContAt r.1 li r.2)
      else if t.value = "printf" then do
        let (_, s1) ← consume s none none
        let (_, s2) ← consume s1 (some .SYMBOL) (some "(")
        let (fmtTok, s3) ← consume s2 (some .STRING) none
        let numArgs := countSpecs false fmtTok.value.data
        let s4 ← argsLoop n numArgs s3
        let r := addStringLiteral s4 fmtTok.value
        let s5 := emit1 (emit1 r.1 .LIT (some (r.2 : ℚ))) .PRINT (some (numArgs : ℚ))
        let (_, s6) ← consume s5 (some .SYMBOL) (some ")")
        let (_, s7) ← consume s6 (some .SYMBOL) (some ";")
        .ok s7
      else if t.value = "scanf" then do
        let (_, s1) ← consume s none none
        let (_, s2) ← consume s1 (some .SYMBOL) (some "(")
        let (fmtTok, s3) ← consume s2 (some .STRING) none
        let numArgs := countSpecs true fmtTok.value.data
        let s4 ← argsLoop n numArgs s3
        let r := addStringLiteral s4 fmtTok.value
        let s5 := emit1 (emit1 r.1 .LIT (some (r.2 : ℚ))) .SCANF (some (numArgs : ℚ))
        let (_, s6) ← consume s5 (some .SYMBOL) (some ")")
        let (_, s7) ← consume s6 (some .SYMBOL) (some ";")
        .ok s7
      else if t.value = "return" then do
        let (_, s1) ← consume s none none
        let s2 ←
          match peekT s1 with
          | none => .error tyErr
          | some tr => if tr.value ≠ ";" then parseExpression n s1 else .ok s1
        let (_, s3) ← consume s2 (some .SYMBOL) (some ";")
        .ok (emit1 s3 .HALT none)
      else do
        let s1 ← parseExpression n s
        let (_, s2) ← consume s1 (some .SYMBOL) (some ";")
        .ok (emit1 s2 .POP none)

def stmtsUntilRBrace : ℕ → CompSt → Except CErr CompSt
  | 0, _ => .error .noFuel
  | n + 1, s =>
    match peekT s with
    | none => .error tyErr
    | some t =>
      if t.value = "\x7d" then .ok s
      else do stmtsUntilRBrace n (← parseStatement n s)

def parseDeclarationList : ℕ → String → Bool → CompSt → Except CErr CompSt
  | 0, _, _, _ => .error .noFuel
  | n + 1, baseType, consumeSemicolon, s => do
    let s1 ← declItemsLoop n baseType s
    if consumeSemicolon then do
      let (_, s2) ← consume s1 (some .SYMBOL) (some ";")
      .ok s2
    else .ok s1

def declItemsLoop : ℕ → String → CompSt → Except CErr CompSt
  | 0, _, _ => .error .noFuel
  | n + 1, baseType, s => do
    let rstars ← ptrStars n s
    let ptrDepth := rstars.1
    let (nameTok, s2) ← consume rstars.2 (some .ID) none
    let arr ←
      match peekT s2 with
      | none => .error tyErr
      | some ta =>
        if ta.value = "[" then do
          let (_, sa) ← consume s2 none none
          let (numTok, sb) ← consume sa (some .NUMBER) none
          let (_, sc) ← consume sb (some .SYMBOL) (some "]")
          .ok (true, jsParseIntOr0 numTok.value.data, sc)
        else .ok (false, (0 : ℚ), s2)
    let isArray := arr.1
    let arraySize := arr.2.1
    let s3 := arr.2.2
    let elementSize : ℕ := if 0 < ptrDepth then 4 else if baseType = "double" then 8 else 4
    let sizeBytes : ℚ := if isArray then arraySize * (elementSize : ℚ) else (elementSize : ℚ)
    let offset := s3.localOffset
    let typeStr :=
      if 0 < ptrDepth then baseType ++ String.mk (List.replicate ptrDepth '*') else baseType
    let s4 := { s3 with
                  localOffset := s3.localOffset + sizeBytes
                  locals := alistSet s3.locals nameTok.value
                    ⟨offset, typeStr, isArray, arraySize, elementSize⟩ }
    let s5 ←
      match peekT s4 with
      | none => .error tyErr
      | some te =>
        if te.value = "=" then
          if isArray then .error (errAt s4 "Array init not supported.")
          else do
            let (_, sa) ← consume s4 none none
            let sb ← parseExpression n sa
            if elementSize = 8 ∧ ¬(0 < ptrDepth) then .ok (emit1 sb .STORE64 (some offset))
            else .ok (emit1 sb .STORE (some offset))
        else .ok s4
    match peekT s5 with
    | none => .error tyErr
    | some tc =>
      if tc.value = "," then do
        let (_, s6) ← consume s5 none none
        declItemsLoop n baseType s6
      else .ok s5

def ptrStars : ℕ → CompSt → Except CErr (ℕ × CompSt)
  | 0, _ => .error .noFuel
  | n + 1, s =>
    match peekT s with
    | none => .error tyErr
    | some t =>
      if t.value = "*" then do
        let (_, s1) ← consume s none none
        let r ← ptrStars n s1
        .ok (r.1 + 1, r.2)
      else .ok (0, s)

def parseSwitchStatement : ℕ → CompSt → Except CErr CompSt
  | 0, _ => .error .noFuel
  | n + 1, s => do
    let (_, s1) ← consume s none none
    let (_, s2) ← consume s1 (some .SYMBOL) (some "(")
    let s3 ← parseExpression n s2
    let (_, s4) ← consume s3 (some .SYMBOL) (some ")")
    let rskip := emitI s4 .JMP (some 0)
    let s5 := pushSwitchCtx rskip.1
    let (_, s6) ← consume s5 (some .SYMBOL) (some "\x7b")
    let r ← switchBody n s6 [] none
    let (_, s7) ← consume r.1 (some .SYMBOL) (some "\x7d")
    let rexit := emitI s7 .JMP (some 0)
    let s8 := setArg rexit.1 rskip.2 rexit.1.instructions.length
    let s9 := emitDispatch s8 r.2.1
    let s10 :=
      match r.2.2 with
      | some dt => emit1 (emit1 s9 .POP none) .JMP (some (dt : ℚ))
      | none => emit1 s9 .POP none
    let switchExit := s10.instructions.length
    let s11 := patchBreaksTop (setArg s10 rexit.2 switchExit) switchExit
    popCtx s11 false

def switchBody : ℕ → CompSt → List (ℚ × ℕ) → Option ℕ →
    Except CErr (CompSt × List (ℚ × ℕ) × Option ℕ)
  | 0, _, _, _ => .error .noFuel
  | n + 1, s, entries, dt =>
    match peekT s with
    | none => .error tyErr
    | some t =>
      if t.value = "\x7d" then .ok (s, entries, dt)
      else if t.value = "case" then do
        let (_, s1) ← consume s none none
        let r ← parseCaseConstant s1
        let (_, s2) ← consume r.2 (some .SYMBOL) (some ":")
        switchBody n s2 (entries ++ [(r.1, s2.instructions.length)]) dt
      else if t.value = "default" then do
        let (_, s1) ← consume s none none
        let (_, s2) ← consume s1 (some .SYMBOL) (some ":")
        switchBody n s2 entries (some s2.instructions.length)
      else do
        switchBody n (← parseStatement n s) entries dt

end

/-! ### Functions and the whole program -/

def skipToRParen : ℕ → CompSt → Except CErr CompSt
  | 0, _ => .error .noFuel
  | n + 1, s =>
    match peekT s with
    | none => .error tyErr
    | some t =>
      if t.value = ")" then .ok s
      else skipToRParen n { s with pos := s.pos + 1 }

/-- Model of `parseFunction`: one keyword, one identifier, parameters
skipped wholesale, a braced body, and a trailing `HALT`. -/
def parseFunction (n : ℕ) (s : CompSt) : Except CErr CompSt := do
  let (_, s1) ← consume s (some .KEYWORD) none
  let (_, s2) ← consume s1 (some .ID) none
  let (_, s3) ← consume s2 (some .SYMBOL) (some "(")
  let s4 ← skipToRParen n s3
  let (_, s5) ← consume s4 (some .SYMBOL) (some ")")
  let (_, s6) ← consume s5 (some .SYMBOL) (some "\x7b")
  let s7 ← stmtsUntilRBrace n s6
  let (_, s8) ← consume s7 (some .SYMBOL) (some "\x7d")
  .ok (emit1 s8 .HALT none)

def parseProgram : ℕ → CompSt → Except CErr CompSt
  | 0, s =>
    (match peekT s with
     | none => .error tyErr
     | some t => if t.type = .EOF then .ok s else .error .noFuel)
  | n + 1, s =>
    match peekT s with
    | none => .error tyErr
    | some t =>
      if t.type = .EOF then .ok s
      else do parseProgram n (← parseFunction n s)

structure CompileResult where
  bytecode : List Instr
  data : List ℕ
  warnings : List String
deriving DecidableEq, Repr

/-- Model of `compile`: preprocess, lex, expand macros, append the EOF
token, then parse functions until EOF. The data segment bytes undergo
the `Uint8Array` conversion. -/
def compile (fuel : ℕ) (source : String) : Except CErr CompileResult := do
  let pp ← preprocess ⟨[], []⟩ source.data
  let toks ← lex (pp.1.length + 1) pp.1 1 []
  let toks2 ← expandMacros pp.2.macros toks
  let eofLine := match toks2.getLast? with | some t => t.line | none => 1
  let s0 : CompSt := ⟨toks2 ++ [⟨.EOF, "EOF", eofLine⟩], 0, [], [], 0, [], pp.2.macros, [], []⟩
  let s1 ← parseProgram fuel s0
  .ok ⟨s1.instructions, s1.dataSegment.map (· % 256), s1.warnings⟩

/-! ### Notions used by the verification statements -/

/-- Four-byte alignment of an address value. -/
def isAligned4 (q : ℚ) : Prop := ∃ k : ℤ, q = 4 * k

/-- Exact number of bytes a single `resolveInput` conversion writes for
the token `raw`: 4 bytes for the conversions d, c and plain f, 8 bytes
for lf, `raw.length + 1` bytes for s, and nothing for an unrecognised
type character. -/
def convWidth (ty : Option Char) (lm : Bool) (raw : List Char) : ℕ :=
  match ty with
  | some 'd' => 4
  | some 'f' => if lm then 8 else 4
  | some 'c' => 4
  | some 's' => raw.length + 1
  | _ => 0

/-- The exact region a single `resolveInput` conversion writes for the
token `raw` at address `addr`: `convWidth` bytes starting at the
truncated address (and nothing at all when the address is negative). -/
def inConvRegion (j : ℕ) (ty : Option Char) (lm : Bool) (addr : ℚ) (raw : List Char) : Prop :=
  0 ≤ addr ∧ ∃ d : ℕ, d < convWidth ty lm raw ∧ j = addr.floor.toNat + d

instance instDecInConvRegion (j : ℕ) (ty : Option Char) (lm : Bool) (addr : ℚ)
    (raw : List Char) : Decidable (inConvRegion j ty lm addr raw) :=
  decidable_of_iff
    (0 ≤ addr ∧ ∃ d ∈ List.range (convWidth ty lm raw), j = addr.floor.toNat + d)
    (by
      unfold inConvRegion
      constructor
      · rintro ⟨h0, d, hd, hj⟩
        exact ⟨h0, d, List.mem_range.mp hd, hj⟩
      · rintro ⟨h0, d, hd, hj⟩
        exact ⟨h0, d, List.mem_range.mpr hd, hj⟩)

/-- The l length modifier flag and the index of the type character
that the `resolveInput` scanner reads for a specifier whose percent
sign sits at index `i`, written exactly as the index walk of
`scanLoop`. -/
def lmiAt (fmt : List Char) (i : ℕ) : Bool × ℕ :=
  let i1 := skipIdxWhile isScanFlag fmt (i + 1)
  let i2 := skipIdxWhile decDigit? fmt i1
  let i3 := if fmt.get? i2 = some '.' then skipIdxWhile decDigit? fmt (i2 + 1) else i2
  if fmt.get? i3 = some 'l' then (true, i3 + 1) else (false, i3)

/-- Sequence of conversion descriptors (type character and presence of
the l length modifier) that the `resolveInput` scanner visits on a
format string from character index `i`, following the specifier
grammar of `scanLoop` exactly. -/
def scanConvsAux (fmt : List Char) : ℕ → ℕ → List (Option Char × Bool)
  | 0, _ => []
  | fuel + 1, i =>
    match fmt.get? i with
    | none => []
    | some c =>
      if c = '%' then
        (fmt.get? (lmiAt fmt i).2, (lmiAt fmt i).1) :: scanConvsAux fmt fuel ((lmiAt fmt i).2 + 1)
      else scanConvsAux fmt fuel (i + 1)

/-- All conversion descriptors of a captured format string, in the
order the scanner consumes tokens and addresses for them. -/
def scanConvs (fmt : List Char) : List (Option Char × Bool) :=
  scanConvsAux fmt (fmt.length + 1) 0

/-- Number of conversion attempts the `resolveInput` scanner makes on a
format string when neither tokens nor addresses run out, following the
specifier grammar of `scanLoop` exactly. -/
def scanSpecsAux (fmt : List Char) : ℕ → ℕ → ℕ
  | 0, _ => 0
  | fuel + 1, i =>
    match fmt.get? i with
    | none => 0
    | some c =>
      if c = '%' then
        let i1 := skipIdxWhile isScanFlag fmt (i + 1)
        let i2 := skipIdxWhile decDigit? fmt i1
        let i3 := if fmt.get? i2 = some '.' then skipIdxWhile decDigit? fmt (i2 + 1) else i2
        let i4 := if fmt.get? i3 = some 'l' then i3 + 1 else i3
        1 + scanSpecsAux fmt fuel (i4 + 1)
      else scanSpecsAux fmt fuel (i + 1)

def scanSpecCount (fmt : List Char) : ℕ := scanSpecsAux fmt (fmt.length + 1) 0

/-! ### Concrete inputs for witnesses and counterexamples -/

def dupProg : List Instr := [⟨.LIT, some 5⟩, ⟨.DUP, none⟩]

def leProg : List Instr := [⟨.LIT, some 1⟩, ⟨.LIT, some 2⟩, ⟨.LE, none⟩]

def geProg : List Instr := [⟨.LIT, some 1⟩, ⟨.LIT, some 2⟩, ⟨.GE, none⟩]

def mallocProg : List Instr :=
  [⟨.LIT, some 3⟩, ⟨.MALLOC, none⟩, ⟨.LIT, some 4⟩, ⟨.MALLOC, none⟩]

/-- State about to execute `DIV` with divisor 0 on top of the stack. -/
def vmDivW : VM := {initVM 2 [⟨.DIV, none⟩] [] with stack := [0, 1]}

/-- State of `vmDivW` at the moment the division by zero throws: the
program counter is advanced and the two operands are popped. -/
def vmDivWE : VM := {vmDivW with pc := vmDivW.pc + 1, stack := []}

/-- Propositional equality on `Except` results, decidable componentwise;
used to evaluate compiler runs inside witnesses. -/
instance instDecEqExcept {ε α : Type} [DecidableEq ε] [DecidableEq α] :
    DecidableEq (Except ε α) := fun x y =>
  match x, y with
  | .ok a, .ok b => if h : a = b then isTrue (by rw [h]) else isFalse (by simp [h])
  | .error e, .error f => if h : e = f then isTrue (by rw [h]) else isFalse (by simp [h])
  | .ok _, .error _ => isFalse (by simp)
  | .error _, .ok _ => isFalse (by simp)

/-- State about to execute `MALLOC` with size 4 on top of the stack. -/
def vmMallocW : VM := {initVM 1 [] [] with stack := [4]}

/-- Process suspended in a scanf on the format `%s %d` with two
argument addresses 100 and 101. -/
def vmScanW : VM :=
  {initVM 7 [] [] with
    state := .WAITING_INPUT
    scanContext := some ⟨"%s %d", [100, 101]⟩}

/-- A terminated process with pending code. -/
def vmTermW : VM := {initVM 3 [⟨.LIT, some 1⟩] [] with state := .TERMINATED}

def c5Toks : List Token :=
  [⟨.NUMBER, "1", 1⟩, ⟨.SYMBOL, "!=", 1⟩, ⟨.NUMBER, "2", 1⟩, ⟨.SYMBOL, ";", 1⟩]

def c5S0 : CompSt := ⟨c5Toks, 0, [], [], 0, [], [], [], []⟩

def c5S1 : CompSt := {c5S0 with pos := 1, instructions := [⟨.LIT, some 1⟩]}

def c5S2 : CompSt := {c5S0 with pos := 3, instructions := [⟨.LIT, some 1⟩, ⟨.LIT, some 2⟩]}

def pmDead : ProcessEntry := ⟨{initVM 100 [] [] with state := .TERMINATED}, "dead", 0, 64, none⟩

def pmLive : ProcessEntry := ⟨initVM 101 [] [], "alive", 0, 64, none⟩

def pm0 : PMState := ⟨[(100, pmDead), (101, pmLive)], 102, 0⟩

def snap0 : ProcSnapshot := ⟨101, 101, "alive", .RUNNING, 64, 0, none⟩

def ppDemoSrc : List Char := "#define X\nA\n#ifdef Y\nB\n#endif\nC".data

def ppDemoOut : List Char := "\nA\n\n\n\nC".data

/-! ## Shared lemmas about line splitting and the preprocessor -/

theorem splitNl_ne_nil (l : List Char) : splitNl l ≠ [] := by
  induction l with
  | nil => simp [splitNl]
  | cons c rest ih =>
    simp only [splitNl]
    split
    · simp
    · match h : splitNl rest with
      | [] => exact absurd h ih
      | x :: xs => simp

theorem splitNl_cons_nl (rest : List Char) : splitNl ('\n' :: rest) = [] :: splitNl rest := by
  simp [splitNl]

theorem splitNl_cons_other (c : Char) (rest x : List Char) (xs : List (List Char))
    (hc : c ≠ '\n') (hh : splitNl rest = x :: xs) :
    splitNl (c :: rest) = (c :: x) :: xs := by
  simp [splitNl, hc, hh]

theorem splitNl_no_nl (l : List Char) : ∀ p ∈ splitNl l, '\n' ∉ p := by
  induction l with
  | nil =>
    intro p hp
    simp only [splitNl, List.mem_singleton] at hp
    simp [hp]
  | cons c rest ih =>
    intro p hp
    by_cases hc : c = '\n'
    · subst hc
      rw [splitNl_cons_nl] at hp
      rcases List.mem_cons.mp hp with h1 | h1
      · simp [h1]
      · exact ih p h1
    · rcases hh : splitNl rest with _ | ⟨x, xs⟩
      · exact absurd hh (splitNl_ne_nil rest)
      · rw [splitNl_cons_other c rest x xs hc hh] at hp
        rcases List.mem_cons.mp hp with h1 | h1
        · subst h1
          intro hmem
          rcases List.mem_cons.mp hmem with h2 | h2
          · exact hc h2.symm
          · exact ih x (hh ▸ List.mem_cons_self x xs) h2
        · exact ih p (hh ▸ List.mem_cons_of_mem x h1)

theorem splitNl_of_no_nl (x : List Char) (h : '\n' ∉ x) : splitNl x = [x] := by
  induction x with
  | nil => simp [splitNl]
  | cons c rest ih =>
    have hc : c ≠ '\n' := by intro hc; exact h (by rw [hc]; exact List.mem_cons_self _ _)
    have hr := ih (fun hm => h (List.mem_cons_of_mem c hm))
    rw [splitNl_cons_other c rest rest [] hc hr]

theorem splitNl_append_nl (x r : List Char) (h : '\n' ∉ x) :
    splitNl (x ++ '\n' :: r) = x :: splitNl r := by
  induction x with
  | nil => simp [splitNl_cons_nl]
  | cons c rest ih =>
    have hc : c ≠ '\n' := by intro hc; exact h (by rw [hc]; exact List.mem_cons_self _ _)
    have hr := ih (fun hm => h (List.mem_cons_of_mem c hm))
    rw [List.cons_append]
    rw [splitNl_cons_other c (rest ++ '\n' :: r) rest (splitNl r) hc hr]

theorem joinNl_splitNl (xs : List (List Char)) (hne : xs ≠ [])
    (hnn : ∀ p ∈ xs, '\n' ∉ p) : splitNl (joinNl xs) = xs := by
  induction xs with
  | nil => exact absurd rfl hne
  | cons x t ih =>
    cases t with
    | nil => exact splitNl_of_no_nl x (hnn x (List.mem_cons_self _ _))
    | cons y t2 =>
      show splitNl (x ++ '\n' :: joinNl (y :: t2)) = _
      rw [splitNl_append_nl x _ (hnn x (List.mem_cons_self _ _))]
      rw [ih (by simp) (fun p hp => hnn p (List.mem_cons_of_mem x hp))]

theorem ppRun_length (st : PPSt) (lines : List (List Char)) :
    (ppRun st lines).1.length = lines.length := by
  induction lines generalizing st with
  | nil => rfl
  | cons l rest ih => simp [ppRun, ih]

theorem ppLine_fst (st : PPSt) (l : List Char) :
    (ppLine st l).1 = if isDirLine l then [] else if ppEmitting st then l else [] := by
  unfold ppLine isDirLine
  by_cases h : (trimChars l).head? == some '#' <;> simp [h]

theorem ppRun_mem (st : PPSt) (lines : List (List Char)) :
    ∀ p ∈ (ppRun st lines).1, p = [] ∨ p ∈ lines := by
  induction lines generalizing st with
  | nil => intro p hp; simp [ppRun] at hp
  | cons l rest ih =>
    intro p hp
    simp only [ppRun] at hp
    rcases List.mem_cons.mp hp with h1 | h1
    · rw [ppLine_fst] at h1
      split at h1
      · exact Or.inl h1
      · split at h1
        · exact Or.inr (h1 ▸ List.mem_cons_self _ _)
        · exact Or.inl h1
    · rcases ih (ppLine st l).2 p h1 with h2 | h2
      · exact Or.inl h2
      · exact Or.inr (List.mem_cons_of_mem l h2)

theorem ppRun_get (st : PPSt) (lines : List (List Char)) (i : ℕ) (h : i < lines.length) :
    (ppRun st lines).1.getD i [] =
      (if isDirLine (lines.getD i []) then []
       else if ppEmitting (ppRun st (lines.take i)).2 then lines.getD i [] else []) := by
  induction lines generalizing st i with
  | nil => simp at h
  | cons l rest ih =>
    cases i with
    | zero =>
      simp only [ppRun, List.getD_cons_zero, List.take_zero]
      rw [ppLine_fst]
    | succ j =>
      simp only [ppRun, List.getD_cons_succ, List.take_succ_cons]
      exact ih (ppLine st l).2 j (by simpa using h)

/-! ## Shared frame lemmas about memory writes and resolveInput -/

theorem ratFloor_eq (q : ℚ) : q.floor = ⌊q⌋ := rfl

theorem memUpd_frame (m : Mem) (a v j : ℕ) (h : j ≠ a) : memUpd m a v j = m j := if_neg h

theorem qNatIndex_spec (q : ℚ) (n : ℕ) (h : qNatIndex q = some n) :
    0 ≤ q ∧ q.floor.toNat = n := by
  unfold qNatIndex at h
  split at h
  case isTrue hc =>
    simp only [Option.some.injEq] at h
    refine ⟨Rat.num_nonneg.mp hc.2, ?_⟩
    rw [← h]
    unfold Rat.floor
    rw [if_pos hc.1]
  case isFalse => exact absurd h (by simp)

theorem setMemByte_frame (m : Mem) (addr val : ℚ) (j : ℕ)
    (h : ¬ (0 ≤ addr ∧ j = addr.floor.toNat)) :
    (setMemByte m addr val).1 j = m j := by
  unfold setMemByte
  split
  · rfl
  case isFalse hg =>
    push_neg at hg
    rcases hq : qNatIndex addr with _ | n
    · simp only [hq]
    · obtain ⟨h0, hfl⟩ := qNatIndex_spec addr n hq
      simp only [hq]
      apply memUpd_frame
      intro hj
      exact h ⟨h0, by rw [hj, hfl]⟩

theorem setMemByte_ok_nonneg (m : Mem) (addr val : ℚ)
    (h : (setMemByte m addr val).2 = none) : 0 ≤ addr := by
  unfold setMemByte at h
  split at h
  · simp at h
  case isFalse hg =>
    push_neg at hg
    exact hg.1

theorem setMem32_frame (host : Host) (m : Mem) (addr val : ℚ) (j : ℕ)
    (h : ¬ (0 ≤ addr ∧ ∃ d : ℕ, d < 4 ∧ j = addr.floor.toNat + d)) :
    (setMem32 host m addr val).1 j = m j := by
  unfold setMem32
  split
  · rfl
  case isFalse hg =>
    push_neg at hg
    have htr : (truncQ addr).toNat = addr.floor.toNat := by
      unfold truncQ
      rw [if_pos hg.1]
    have hne : ∀ d : ℕ, d < 4 → j ≠ (truncQ addr).toNat + d := by
      intro d hd heq
      exact h ⟨hg.1, d, hd, by rw [heq, htr]⟩
    simp only [write4]
    rw [memUpd_frame _ _ _ _ (by have := hne 3 (by omega); omega),
        memUpd_frame _ _ _ _ (by have := hne 2 (by omega); omega),
        memUpd_frame _ _ _ _ (by have := hne 1 (by omega); omega),
        memUpd_frame _ _ _ _ (by have := hne 0 (by omega); omega)]

theorem setMem64_frame (host : Host) (m : Mem) (addr val : ℚ) (j : ℕ)
    (h : ¬ (0 ≤ addr ∧ ∃ d : ℕ, d < 8 ∧ j = addr.floor.toNat + d)) :
    (setMem64 host m addr val).1 j = m j := by
  unfold setMem64
  split
  · rfl
  case isFalse hg =>
    push_neg at hg
    have htr : (truncQ addr).toNat = addr.floor.toNat := by
      unfold truncQ
      rw [if_pos hg.1]
    have hne : ∀ d : ℕ, d < 8 → j ≠ (truncQ addr).toNat + d := by
      intro d hd heq
      exact h ⟨hg.1, d, hd, by rw [heq, htr]⟩
    simp only [write8, write4]
    rw [memUpd_frame _ _ _ _ (by have := hne 7 (by omega); omega),
        memUpd_frame _ _ _ _ (by have := hne 6 (by omega); omega),
        memUpd_frame _ _ _ _ (by have := hne 5 (by omega); omega),
        memUpd_frame _ _ _ _ (by have := hne 4 (by omega); omega),
        memUpd_frame _ _ _ _ (by have := hne 3 (by omega); omega),
        memUpd_frame _ _ _ _ (by have := hne 2 (by omega); omega),
        memUpd_frame _ _ _ _ (by have := hne 1 (by omega); omega),
        memUpd_frame _ _ _ _ (by have := hne 0 (by omega); omega)]

theorem floor_add_nat_succ (addr : ℚ) (k : ℕ) (h0 : 0 ≤ addr + (k : ℕ)) :
    (addr + ((k + 1 : ℕ) : ℚ)).floor.toNat = (addr + (k : ℕ)).floor.toNat + 1 := by
  rw [ratFloor_eq, ratFloor_eq]
  have hcast : (addr + ((k + 1 : ℕ) : ℚ)) = (addr + (k : ℕ)) + 1 := by push_cast; ring
  rw [hcast, Int.floor_add_one]
  have : 0 ≤ ⌊addr + (k : ℕ)⌋ := Int.floor_nonneg.mpr h0
  omega

theorem scanWriteStrAux_frame (addr : ℚ) (j : ℕ) :
    ∀ (raw : List Char) (k : ℕ) (m : Mem),
      (∀ d : ℕ, d ≤ raw.length →
        ¬ (0 ≤ addr + (k : ℕ) ∧ j = (addr + (k : ℕ)).floor.toNat + d)) →
      (scanWriteStrAux m addr raw k).1 j = m j := by
  intro raw
  induction raw with
  | nil =>
    intro k m h
    refine setMemByte_frame m _ 0 j ?_
    rintro ⟨h0, hj⟩
    exact h 0 (by omega) ⟨h0, by omega⟩
  | cons c rest ih =>
    intro k m h
    unfold scanWriteStrAux
    rcases hr : (setMemByte m (addr + (k : ℕ)) ((c.toNat : ℚ))).2 with _ | e
    · simp only [hr]
      have h0k : 0 ≤ addr + (k : ℕ) := setMemByte_ok_nonneg _ _ _ hr
      have hbyte : (setMemByte m (addr + (k : ℕ)) ((c.toNat : ℚ))).1 j = m j := by
        refine setMemByte_frame m _ _ j ?_
        rintro ⟨h0, hj⟩
        exact h 0 (by omega) ⟨h0, by omega⟩
      rw [ih (k + 1) _ ?_]
      · exact hbyte
      · intro d hd
        rintro ⟨h0, hj⟩
        refine h (d + 1) (by simp; omega) ⟨h0k, ?_⟩
        rw [floor_add_nat_succ addr k h0k] at hj
        omega
    · simp only [hr]
      refine setMemByte_frame m _ _ j ?_
      rintro ⟨h0, hj⟩
      exact h 0 (by omega) ⟨h0, by omega⟩

theorem scanConvsAux_not_pct (fmt : List Char) (f i : ℕ) (c : Char)
    (hgi : fmt.get? i = some c) (hc : ¬ c = '%') :
    scanConvsAux fmt (f + 1) i = scanConvsAux fmt f (i + 1) := by
  simp only [scanConvsAux, hgi]
  rw [if_neg hc]

theorem scanConvsAux_pct (fmt : List Char) (f i : ℕ)
    (hgi : fmt.get? i = some '%') :
    scanConvsAux fmt (f + 1) i =
      (fmt.get? (lmiAt fmt i).2, (lmiAt fmt i).1) ::
        scanConvsAux fmt f ((lmiAt fmt i).2 + 1) := by
  simp only [scanConvsAux, hgi]
  rw [if_pos trivial]

theorem writeConv_frame (host : Host) (m : Mem) (ty : Option Char) (lm : Bool)
    (addr : ℚ) (raw : List Char) (j : ℕ)
    (h : ¬ inConvRegion j ty lm addr raw) :
    (writeConv host m ty lm addr raw).1 j = m j := by
  unfold inConvRegion at h
  push_neg at h
  unfold writeConv
  split
  case h_1 heq =>
    refine setMem32_frame host m addr _ j ?_
    rintro ⟨h0, d, hd, hj⟩
    exact h h0 d hd hj
  case h_2 heq =>
    split
    case isTrue hlm =>
      subst hlm
      refine setMem64_frame host m addr _ j ?_
      rintro ⟨h0, d, hd, hj⟩
      exact h h0 d hd hj
    case isFalse hlm =>
      have hlm2 : lm = false := by
        cases lm
        · rfl
        · exact absurd rfl hlm
      subst hlm2
      refine setMem32_frame host m addr _ j ?_
      rintro ⟨h0, d, hd, hj⟩
      exact h h0 d hd hj
  case h_3 heq =>
    refine setMem32_frame host m addr _ j ?_
    rintro ⟨h0, d, hd, hj⟩
    exact h h0 d hd hj
  case h_4 heq =>
    refine scanWriteStrAux_frame addr j raw 0 m ?_
    intro d hd
    rintro ⟨h0, hj⟩
    have hz : (addr + ((0 : ℕ) : ℚ)) = addr := by push_cast; ring
    rw [hz] at h0 hj
    have hw : convWidth (some 's') lm raw = raw.length + 1 := rfl
    exact h h0 d (by rw [hw]; omega) hj
  case h_5 =>
    rfl

theorem scanLoop_frame (host : Host) (fmt : List Char) (args : List ℚ)
    (inputs : List (List Char)) (j : ℕ) :
    ∀ (fuel : ℕ) (i ii ti : ℕ) (m : Mem),
      (∀ t : ℕ, ti + t < args.length → ii + t < inputs.length →
        ¬ inConvRegion j ((scanConvsAux fmt fuel i).getD t (none, false)).1
            ((scanConvsAux fmt fuel i).getD t (none, false)).2
            (args.getD (ti + t) 0) (inputs.getD (ii + t) [])) →
      (scanLoop host fmt args inputs fuel i ii ti m).1 j = m j := by
  intro fuel
  induction fuel with
  | zero => intro i ii ti m h; rfl
  | succ f ih =>
    intro i ii ti m h
    unfold scanLoop
    rcases hgi : fmt.get? i with _ | c
    · simp only [hgi]
    · simp only [hgi]
      split
      next hc =>
        have hgp : fmt.get? i = some '%' := by rw [hgi, hc]
        have hcons := scanConvsAux_pct fmt f i hgp
        split
        · rfl
        next hbrk =>
          push_neg at hbrk
          have h00 : ¬ inConvRegion j (fmt.get? (lmiAt fmt i).2) (lmiAt fmt i).1
              (args.getD ti 0) (inputs.getD ii []) := by
            have hin := h 0 (by omega) (by omega)
            rw [hcons] at hin
            simpa using hin
          have hsh : ∀ t : ℕ, ti + 1 + t < args.length → ii + 1 + t < inputs.length →
              ¬ inConvRegion j
                ((scanConvsAux fmt f ((lmiAt fmt i).2 + 1)).getD t (none, false)).1
                ((scanConvsAux fmt f ((lmiAt fmt i).2 + 1)).getD t (none, false)).2
                (args.getD (ti + 1 + t) 0) (inputs.getD (ii + 1 + t) []) := by
            intro t h1 h2
            have e1 : ti + 1 + t = ti + (t + 1) := by omega
            have e2 : ii + 1 + t = ii + (t + 1) := by omega
            rw [e1, e2]
            have hin := h (t + 1) (by omega) (by omega)
            rw [hcons] at hin
            simpa using hin
          split
          next e heq =>
            apply writeConv_frame
            exact h00
          next heq =>
            refine (ih ((lmiAt fmt i).2 + 1) (ii + 1) (ti + 1) _ hsh).trans ?_
            apply writeConv_frame
            exact h00
      next hc =>
        rw [scanConvsAux_not_pct fmt f i c hgi hc] at h
        exact ih (i + 1) ii ti m h

/-! ## Shared lemmas about the parser -/

theorem consume_any_ok (s : CompSt) (t : Token) (h : peekT s = some t) :
    consume s none none = .ok (t, {s with pos := s.pos + 1}) := by
  unfold consume
  unfold peekT at h
  rw [h]
  simp

/-- One iteration of the equality loop when the lookahead is an
equality operator: the right operand is parsed and the corresponding
comparison opcode is emitted. -/
theorem eqLoop_step (k : ℕ) (s s2 : CompSt) (t : Token)
    (h : peekT s = some t) (hop : t.value = "==" ∨ t.value = "!=")
    (hrel : parseRelational k {s with pos := s.pos + 1} = .ok s2) :
    eqLoop (k + 1) s = eqLoop k (emit1 s2 (if t.value = "==" then .EQ else .NEQ) none) := by
  simp only [eqLoop]
  simp only [h]
  rw [if_pos hop]
  rw [consume_any_ok s t h]
  show (parseRelational k {s with pos := s.pos + 1}).bind _ = _
  rw [hrel]
  rfl

/-- Exit of the equality loop on any other lookahead. -/
theorem eqLoop_stop (k : ℕ) (s : CompSt) (t : Token)
    (h : peekT s = some t) (hnt : ¬ (t.value = "==" ∨ t.value = "!=")) :
    eqLoop (k + 1) s = .ok s := by
  simp only [eqLoop]
  simp only [h]
  rw [if_neg hnt]

theorem peekT_emit1 (s : CompSt) (op : OpCode) (a : Option ℚ) :
    peekT (emit1 s op a) = peekT s := rfl

/-! ## Claim theorems -/

/-- Claim C5: in the current revision of `parseEquality`, compiling the
expression `a != b` emits the code of `a`, then the code of `b`, then a
single `NEQ` instruction, and `a == b` emits `EQ` in the same position.
The operand codes are characterised as whatever `parseRelational`
appended for each side. -/
theorem C5_equality_emits_eq_and_neq (n : ℕ) (s s1 s2 : CompSt) (a b : List Instr)
    (t1 t2 : Token)
    (h1 : parseRelational (n + 1) s = .ok s1)
    (hA : s1.instructions = s.instructions ++ a)
    (hpk : peekT s1 = some t1)
    (hop : t1.value = "==" ∨ t1.value = "!=")
    (h2 : parseRelational n {s1 with pos := s1.pos + 1} = .ok s2)
    (hB : s2.instructions = s1.instructions ++ b)
    (hpk2 : peekT s2 = some t2)
    (hnt : ¬ (t2.value = "==" ∨ t2.value = "!="))
    (hn : 1 ≤ n) :
    parseEquality (n + 2) s =
      .ok {s2 with instructions := s.instructions ++ a ++ b ++
            [⟨if t1.value = "==" then .EQ else .NEQ, none⟩]} := by
  obtain ⟨m, rfl⟩ : ∃ m, n = m + 1 := ⟨n - 1, by omega⟩
  show parseEquality (m + 1 + 1 + 1) s = _
  simp only [parseEquality]
  rw [h1]
  show eqLoop (m + 1 + 1) s1 = _
  rw [eqLoop_step (m + 1) s1 s2 t1 hpk hop h2]
  rw [eqLoop_stop m _ t2 (by rw [peekT_emit1]; exact hpk2) hnt]
  unfold emit1 emitI
  rw [hB, hA]

/-- Witness for C5 on the token stream of `1 != 2 ;`. -/
theorem C5_equality_emits_eq_and_neq_witness :
    parseEquality 7 c5S0 =
      .ok {c5S2 with instructions :=
            [⟨.LIT, some 1⟩, ⟨.LIT, some 2⟩, ⟨.NEQ, none⟩]} := by
  have h := C5_equality_emits_eq_and_neq 5 c5S0 c5S1 c5S2
    [⟨.LIT, some 1⟩] [⟨.LIT, some 2⟩] ⟨.SYMBOL, "!=", 1⟩ ⟨.SYMBOL, ";", 1⟩
    (by with_unfolding_all decide) (by with_unfolding_all decide)
    (by with_unfolding_all decide) (by simp)
    (by with_unfolding_all decide) (by with_unfolding_all decide)
    (by with_unfolding_all decide) (by simp) (by omega)
  simpa using h

/-- Claim C1: the specification states that executing DUP on a VM whose
evaluation stack has top value v pushes a second copy of v. The source
contradicts this: `executeInstruction` has no `DUP` case, so the opcode
falls through the switch and the whole state is unchanged; running the
dispatch prologue `LIT 5; DUP` leaves the stack at `[5]` instead of the
required `[5, 5]`. -/
theorem C1_dup_executes_as_noop :
    (∀ (host : Host) (vm : VM), exec host ⟨.DUP, none⟩ vm = (vm, none)) ∧
    (step trivHost (initVM 1 dupProg []) 2).1 = true ∧
    (step trivHost (initVM 1 dupProg []) 2).2.stack = [5] := by
  refine ⟨fun host vm => rfl, ?_, ?_⟩ <;> with_unfolding_all decide

/-- Claim C2: the specification states that LE and GE pop two values
and push 1 or 0. The source contradicts this: `executeInstruction` has
no `LE` or `GE` case, so both opcodes are no-ops; running
`LIT 1; LIT 2; LE` leaves the stack at `[2, 1]` (top first) instead of
the required `[1]`, and likewise for `GE`. -/
theorem C2_le_ge_execute_as_noops :
    (∀ (host : Host) (vm : VM),
      exec host ⟨.LE, none⟩ vm = (vm, none) ∧ exec host ⟨.GE, none⟩ vm = (vm, none)) ∧
    (step trivHost (initVM 1 leProg []) 3).2.stack = [2, 1] ∧
    (step trivHost (initVM 1 geProg []) 3).2.stack = [2, 1] := by
  refine ⟨fun host vm => ⟨rfl, rfl⟩, ?_, ?_⟩ <;> with_unfolding_all decide

/-- Claim C3: if executing the fetched instruction raises a runtime
fault (the thrown message `msg`), then `step` appends the
`Segmentation Fault (Core Dumped): <reason>` diagnostic to the stdout
sink, the state becomes TERMINATED, and `step` returns false; `step`
itself is a total function, so no exception propagates out of it. -/
theorem C3_fault_terminates_with_diagnostic (host : Host) (vm : VM) (cycles : ℕ)
    (instr : Instr) (vmE : VM) (msg : String)
    (hrun : vm.state = .RUNNING)
    (hpc : ¬ (vm.code.length : ℚ) ≤ vm.pc)
    (hfetch : codeAt vm.code vm.pc = some instr)
    (hexec : exec host instr {vm with pc := vm.pc + 1} = (vmE, some msg))
    (hcyc : 1 ≤ cycles) :
    step host vm cycles =
      (false, {vmE with state := .TERMINATED, out := vmE.out ++ [segfaultLine msg]}) := by
  obtain ⟨k, rfl⟩ : ∃ k, cycles = k + 1 := ⟨cycles - 1, by omega⟩
  unfold step
  rw [if_neg (by simp [hrun])]
  unfold stepLoop
  rw [if_neg hpc]
  simp only [hfetch, hexec]

/-- Witness for C3 at the concrete divide-by-zero state `vmDivW`. -/
theorem C3_fault_terminates_with_diagnostic_witness :
    step trivHost vmDivW 1 =
      (false, {vmDivWE with state := .TERMINATED,
                            out := vmDivWE.out ++ [segfaultLine "Divide by zero"]}) :=
  C3_fault_terminates_with_diagnostic trivHost vmDivW 1 ⟨.DIV, none⟩ vmDivWE
    "Divide by zero" rfl (by with_unfolding_all decide) (by with_unfolding_all rfl)
    (by with_unfolding_all rfl) (by omega)

/-- Claim C4, counterexample: popping the non-negative sizes 3 and then
4 makes the second MALLOC push the pointer 1027, which is not divisible
by four, refuting the claim that every pointer pushed by MALLOC is
4-byte aligned. -/
theorem C4_counterexample :
    (step trivHost (initVM 1 mallocProg []) 4).1 = true ∧
    (step trivHost (initVM 1 mallocProg []) 4).2.stack = [1027, 1024] ∧
    ¬ isAligned4 1027 := by
  refine ⟨?_, ?_, ?_⟩
  · with_unfolding_all decide
  · with_unfolding_all decide
  · rintro ⟨k, hk⟩
    have : (1027 : ℤ) = 4 * k := by exact_mod_cast hk
    omega

/-- Claim C4, amended: the initial heap pointer is 4-byte aligned, only
MALLOC moves it, and a MALLOC execution pushes the current (aligned)
heap pointer and advances it by the popped size, so alignment of every
pushed pointer is preserved exactly when every popped size is a
multiple of four; MALLOC itself never rounds the size up. -/
theorem C4_malloc_alignment_amended (host : Host) (pid : ℕ) (code : List Instr)
    (data : List ℕ) (instr : Instr) (vm : VM) (size : ℚ) (rest : List ℚ) :
    isAligned4 (initVM pid code data).heapPointer ∧
    (instr.op = .MALLOC → vm.stack = size :: rest → isAligned4 vm.heapPointer →
      isAligned4 size →
      exec host instr vm =
        ({vm with stack := vm.heapPointer :: rest, heapPointer := vm.heapPointer + size},
         none) ∧
      isAligned4 vm.heapPointer ∧ isAligned4 (vm.heapPointer + size)) ∧
    (instr.op ≠ .MALLOC → ((exec host instr vm).1).heapPointer = vm.heapPointer) := by
  refine ⟨?_, ?_, ?_⟩
  · refine ⟨(((data.length : ℚ) + 1024) / 4).ceil, ?_⟩
    show ((((((data.length : ℚ) + 1024) / 4).ceil * 4 : ℤ) : ℚ)) = _
    push_cast
    ring
  · intro hop hstk hhp hsz
    obtain ⟨op, arg⟩ := instr
    simp only at hop
    subst hop
    refine ⟨?_, hhp, ?_⟩
    · simp [exec, hstk]
    · obtain ⟨k1, h1⟩ := hhp
      obtain ⟨k2, h2⟩ := hsz
      exact ⟨k1 + k2, by rw [h1, h2]; push_cast; ring⟩
  · intro h
    obtain ⟨op, arg⟩ := instr
    simp only [ne_eq] at h
    cases op <;> simp_all [exec] <;> (try split <;> simp_all)

/-- Witness for C4 at a MALLOC of size 4 on the initial heap pointer. -/
theorem C4_malloc_alignment_amended_witness :
    isAligned4 (initVM 1 [] []).heapPointer ∧
    (exec trivHost ⟨.MALLOC, none⟩ vmMallocW =
      ({vmMallocW with stack := vmMallocW.heapPointer :: [],
                       heapPointer := vmMallocW.heapPointer + 4}, none) ∧
     isAligned4 vmMallocW.heapPointer ∧ isAligned4 (vmMallocW.heapPointer + 4)) := by
  have h := C4_malloc_alignment_amended trivHost 1 [] [] ⟨.MALLOC, none⟩ vmMallocW 4 []
  exact ⟨h.1, h.2.1 rfl rfl
    ⟨256, by show vmMallocW.heapPointer = _; with_unfolding_all decide⟩
    ⟨1, by norm_num⟩⟩

/-- Claim C6: compiling the empty source succeeds with an empty
instruction vector, an empty data segment and no warnings, and stepping
a process built from that artifact immediately terminates it and
returns false. -/
theorem C6_empty_source_compiles_and_terminates (fuel cycles : ℕ) (host : Host)
    (pid : ℕ) (hc : 1 ≤ cycles) :
    compile fuel "" = .ok ⟨[], [], []⟩ ∧
    step host (initVM pid [] []) cycles =
      (false, {initVM pid [] [] with state := .TERMINATED}) := by
  constructor
  · cases fuel with
    | zero => with_unfolding_all rfl
    | succ n => with_unfolding_all rfl
  · obtain ⟨k, rfl⟩ : ∃ k, cycles = k + 1 := ⟨cycles - 1, by omega⟩
    unfold step
    rw [if_neg (by simp [initVM])]
    unfold stepLoop
    rw [if_pos (by simp [initVM])]

/-- Witness for C6 at fuel 100 and the default chunk of 100 cycles. -/
theorem C6_empty_source_compiles_and_terminates_witness :
    compile 100 "" = .ok ⟨[], [], []⟩ ∧
    step trivHost (initVM 1 [] []) 100 =
      (false, {initVM 1 [] [] with state := .TERMINATED}) :=
  C6_empty_source_compiles_and_terminates 100 100 trivHost 1 (by omega)

/-- Claim C7, counterexample: with the captured scan format `%s %d`
and argument addresses 100 and 101, the line `AB` has one
whitespace-separated token, fewer than the two conversion specifiers,
yet the memory at the remaining argument address 101 changes from 0 to
66, because the `%s` write of the first conversion covers it. -/
theorem C7_counterexample :
    (jsTrimSplitWs "AB".data).length = 1 ∧
    scanSpecCount "%s %d".data = 2 ∧
    vmScanW.memory 101 = 0 ∧
    (resolveInput trivHost vmScanW "AB").1.memory 101 = 66 ∧
    (resolveInput trivHost vmScanW "AB").1.state = .RUNNING := by
  refine ⟨?_, ?_, ?_, ?_, ?_⟩ <;> with_unfolding_all decide

/-- Claim C7, amended: when an input line is delivered to a process
suspended with a captured scan context, at most
min(token count, address count) conversions perform writes, each
confined to the exact region of its own consumed token and address:
4 bytes at the truncated address for the conversions d, c and plain f,
8 bytes for lf, token length + 1 bytes for s, and nothing for an
unrecognised type character; every byte outside those regions, in
particular every remaining argument address not overlapped by them, is
unchanged. -/
theorem C7_scanf_frame_amended (host : Host) (vm : VM) (input : String) (ctx : ScanCtx)
    (hctx : vm.scanContext = some ctx) (j : ℕ)
    (hout : ∀ t : ℕ, t < ctx.args.length → t < (jsTrimSplitWs input.data).length →
      ¬ inConvRegion j ((scanConvs ctx.fmt.data).getD t (none, false)).1
          ((scanConvs ctx.fmt.data).getD t (none, false)).2
          (ctx.args.getD t 0) ((jsTrimSplitWs input.data).getD t [])) :
    (resolveInput host vm input).1.memory j = vm.memory j := by
  unfold resolveInput
  split
  · rfl
  · simp only [hctx]
    split
    case h_1 e heq =>
      show (scanLoop host ctx.fmt.data ctx.args (jsTrimSplitWs input.data)
        (ctx.fmt.data.length + 1) 0 0 0 vm.memory).1 j = vm.memory j
      apply scanLoop_frame
      intro t h1 h2
      rw [Nat.zero_add] at h1 h2 ⊢
      exact hout t h1 h2
    case h_2 heq =>
      show (scanLoop host ctx.fmt.data ctx.args (jsTrimSplitWs input.data)
        (ctx.fmt.data.length + 1) 0 0 0 vm.memory).1 j = vm.memory j
      apply scanLoop_frame
      intro t h1 h2
      rw [Nat.zero_add] at h1 h2 ⊢
      exact hout t h1 h2

/-- Witness for C7 at the context capturing format percent-s
percent-d with addresses 100 and 101, the line AB and the far-away
byte 500. -/
theorem C7_scanf_frame_amended_witness :
    (resolveInput trivHost vmScanW "AB").1.memory 500 = vmScanW.memory 500 := by
  refine C7_scanf_frame_amended trivHost vmScanW "AB" ⟨"%s %d", [100, 101]⟩ rfl 500 ?_
  intro t h1 h2
  have ht : t = 0 := by
    have hlen : (jsTrimSplitWs "AB".data).length = 1 := by with_unfolding_all decide
    omega
  subst ht
  with_unfolding_all decide

/-- Claim C8: after the list operation of the process manager, no entry
whose VM state is TERMINATED remains in the process map, and no record
of the returned snapshot has state TERMINATED. -/
theorem C8_list_sweeps_terminated (pm : PMState) :
    (∀ p ∈ (getProcessList pm).1.processes, p.2.vm.state ≠ .TERMINATED) ∧
    (∀ r ∈ (getProcessList pm).2, r.state ≠ .TERMINATED) := by
  have hmem : ∀ p ∈ (cleanupTerminated pm).processes, p.2.vm.state ≠ PState.TERMINATED := by
    intro p hp
    simp only [cleanupTerminated] at hp
    split at hp <;>
      simpa using bne_iff_ne.mp (List.mem_filter.mp hp).2
  constructor
  · exact hmem
  · intro r hr
    obtain ⟨p, hp, hpr⟩ := List.mem_map.mp hr
    have := hmem p hp
    rw [← hpr]
    simpa using this

/-- Witness for C8: on a registry holding one terminated and one
running process, the surviving snapshot record is not terminated. -/
theorem C8_list_sweeps_terminated_witness : snap0.state ≠ .TERMINATED :=
  (C8_list_sweeps_terminated pm0).2 snap0 (by with_unfolding_all exact List.Mem.head _)

/-- Claim C9: a successful preprocessor run yields output with exactly
the same number of lines as the input; every line whose trimmed form
starts with `#` becomes a blank line, every other line is copied
unchanged when the conditional state before it is emitting and becomes
a blank line otherwise. -/
theorem C9_preprocess_line_shape (st : PPSt) (source outS : List Char) (stF : PPSt)
    (h : preprocess st source = .ok (outS, stF)) :
    (splitNl outS).length = (splitNl source).length ∧
    ∀ i, i < (splitNl source).length →
      (splitNl outS).getD i [] =
        (if isDirLine ((splitNl source).getD i []) then []
         else if ppEmitting (ppRun st ((splitNl source).take i)).2 then
           (splitNl source).getD i []
         else []) := by
  simp only [preprocess] at h
  split at h
  case isFalse => exact absurd h (by simp)
  case isTrue hcs =>
    simp only [Except.ok.injEq, Prod.mk.injEq] at h
    obtain ⟨hout, _⟩ := h
    have hsplit : splitNl outS = (ppRun st (splitNl source)).1 := by
      rw [← hout]
      refine joinNl_splitNl _ ?_ ?_
      · intro hnil
        have hlen := ppRun_length st (splitNl source)
        rw [hnil] at hlen
        exact splitNl_ne_nil source (List.eq_nil_of_length_eq_zero hlen.symm)
      · intro p hp
        rcases ppRun_mem st (splitNl source) p hp with h1 | h1
        · simp [h1]
        · exact splitNl_no_nl source p h1
    constructor
    · rw [hsplit, ppRun_length]
    · intro i hi
      rw [hsplit]
      exact ppRun_get st (splitNl source) i hi

/-- Witness for C9 on a six-line source exercising a define, a
suppressed conditional region and plain lines. -/
theorem C9_preprocess_line_shape_witness :
    (splitNl ppDemoOut).length = (splitNl ppDemoSrc).length ∧
    ∀ i, i < (splitNl ppDemoSrc).length →
      (splitNl ppDemoOut).getD i [] =
        (if isDirLine ((splitNl ppDemoSrc).getD i []) then []
         else if ppEmitting (ppRun ⟨[], []⟩ ((splitNl ppDemoSrc).take i)).2 then
           (splitNl ppDemoSrc).getD i []
         else []) :=
  C9_preprocess_line_shape ⟨[], []⟩ ppDemoSrc ppDemoOut ⟨[("X", "1")], []⟩
    (by with_unfolding_all decide)

/-- Claim C10: calling step on a process that is TERMINATED or
WAITING_INPUT returns false and leaves the whole VM state, including
the captured scan context and the stdout history, unchanged. -/
theorem C10_step_noop_when_not_running (host : Host) (vm : VM) (cycles : ℕ)
    (h : vm.state = .TERMINATED ∨ vm.state = .WAITING_INPUT) :
    step host vm cycles = (false, vm) := by
  unfold step
  rw [if_pos h]

/-- Witness for C10 at a terminated process with pending code. -/
theorem C10_step_noop_when_not_running_witness :
    step trivHost vmTermW 100 = (false, vmTermW) :=
  C10_step_noop_when_not_running trivHost vmTermW 100 (Or.inl rfl)

end OptimusOS
